import Mathlib

/-!
# Shallow embedding of the riconpacker icon-pack codec core

This file embeds, in Lean 4, the data model and the operations of
`src/riconpacker.c`: platform size schemes (`InitIconPack`), slot
population (`LoadIconToPack`), missing-size generation (the Ctrl+G logic
of `main`), the ICO container codec (`SaveIconPackToICO`,
`LoadIconPackFromICO`), the ICNS encoder (`SaveIconPackToICNS`) and the
command-line size-argument validation of `ProcessCommandLine`.

Bytes are modelled as natural numbers `0..255`; byte buffers as
`List Nat`.  C integer narrowing (assignment of an `int` to an
`unsigned char` / `unsigned short` field) is made explicit with `% 256`
/ `% 65536` / `% 2^32` where it occurs in the source.

The external PNG / image primitives (rpng and raylib) are a trusted
library boundary of the program; they are modelled as concrete
invertible codecs following the specification's description of that
boundary (each such definition is marked `Modelled from the spec:`).
-/

namespace RIconPacker

/-- Pixel buffer, mirroring raylib's `Image`: width, height, pixel
format code and the raw data bytes. -/
structure Image where
  width : Nat
  height : Nat
  format : Nat
  data : List Nat
  deriving Repr, DecidableEq

/-- raylib pixel-format code for 3-channel RGB data. -/
def PIXELFORMAT_UNCOMPRESSED_R8G8B8 : Nat := 4

/-- raylib pixel-format code for 4-channel RGBA data. -/
def PIXELFORMAT_UNCOMPRESSED_R8G8B8A8 : Nat := 7

/-- `MAX_IMAGE_TEXT_SIZE` from the source: the per-entry text buffer is
40 bytes (39 content bytes plus terminator). -/
def MAX_IMAGE_TEXT_SIZE : Nat := 40

/-- One icon pack entry (`IconPackEntry` in the source).  The `texture`
field (a GPU handle mirroring `image`) is not modelled.  `text` is the
40-byte `char` buffer. -/
structure IconPackEntry where
  size : Nat
  valid : Bool
  image : Image
  text : List Nat
  deriving Repr, DecidableEq

/-- The all-zero image of a `calloc`-ed `IconPackEntry`. -/
def zeroImage : Image := { width := 0, height := 0, format := 0, data := [] }

/-- A `calloc`-ed `IconPackEntry`: every field zero. -/
def zeroEntry : IconPackEntry :=
  { size := 0, valid := false, image := zeroImage, text := List.replicate 40 0 }

/-- An icon pack (`IconPack` in the source): entry slots plus the bound
platform size table.  The C `count` field is `entries.length`. -/
structure IconPack where
  entries : List IconPackEntry
  sizes : List Nat
  deriving Repr, DecidableEq

/-- `pack->count`. -/
def IconPack.count (pack : IconPack) : Nat := pack.entries.length

/-! ## Little-endian / big-endian byte helpers -/

/-- Little-endian bytes of an `unsigned short` field. -/
def u16le (n : Nat) : List Nat := [n % 256, n / 256 % 256]

/-- Little-endian bytes of an `unsigned int` field. -/
def u32le (n : Nat) : List Nat :=
  [n % 256, n / 256 % 256, n / 65536 % 256, n / 16777216 % 256]

/-- Big-endian bytes of an `unsigned int`, as written by the ICNS saver
(`sizeBE[0] = (size >> 24) & 0xFF;` etc.). -/
def u32be (n : Nat) : List Nat :=
  [n / 16777216 % 256, n / 65536 % 256, n / 256 % 256, n % 256]

/-- Read a little-endian `unsigned short` from the head of a stream
(missing bytes read as 0, like a `calloc`-ed destination of `fread`). -/
def readU16le (b : List Nat) : Nat := b.getD 0 0 + 256 * b.getD 1 0

/-- Read a little-endian `unsigned int` from the head of a stream. -/
def readU32le (b : List Nat) : Nat :=
  b.getD 0 0 + 256 * b.getD 1 0 + 65536 * b.getD 2 0 + 16777216 * b.getD 3 0

/-- Read a big-endian `unsigned int` from the head of a stream
(the ICNS `SWAP_INT32` read path). -/
def readU32be (b : List Nat) : Nat :=
  16777216 * b.getD 0 0 + 65536 * b.getD 1 0 + 256 * b.getD 2 0 + b.getD 3 0

/-! ## C string-buffer operations -/

/-- `strlen` on a byte buffer: number of bytes before the first NUL. -/
def strlenB : List Nat → Nat
  | [] => 0
  | b :: rest => if b = 0 then 0 else strlenB rest + 1

/-- The text content of a buffer: its bytes before the first NUL. -/
def textContent (buf : List Nat) : List Nat := buf.take (strlenB buf)

/-- `memcpy(dst, src, n)` over byte buffers: the first `n` bytes of
`src` overwrite the head of `dst`. -/
def memcpyB (dst src : List Nat) (n : Nat) : List Nat :=
  src.take n ++ dst.drop n

/-! ## The external PNG codec (trusted library boundary)

The spec treats PNG encode/decode and the `rIPt` chunk codec as an
external collaborator: "decode arbitrary PNG bytes to a pixel buffer;
encode a pixel buffer to PNG bytes", with the custom ancillary chunk
holding at most 39 raw bytes.  The model below is a concrete such
codec: signature, width, height, channel count, raw pixel data, then an
optional trailing `rIPt` chunk. -/

/-- The 8-byte PNG magic checked by both container loaders. -/
def pngSignature : List Nat := [0x89, 0x50, 0x4e, 0x47, 0x0d, 0x0a, 0x1a, 0x0a]

/-- The 4 tag bytes of the custom `rIPt` chunk. -/
def rIPtTag : List Nat := [0x72, 0x49, 0x50, 0x74]

/-- Modelled from the spec: `rpng_save_image_to_memory`, the external
PNG encoder ("encode a pixel buffer to PNG bytes").  Emits the PNG
signature, then width, height, channel count and the raw data. -/
def rpng_save_image_to_memory (data : List Nat) (width height channels : Nat) :
    List Nat :=
  pngSignature ++ u32le width ++ u32le height ++ [channels] ++ data

/-- Modelled from the spec: `rpng_chunk_write_from_memory`, the external
chunk writer inserting the ancillary `rIPt` chunk into an encoded PNG
stream (length, tag, data). -/
def rpng_chunk_write_from_memory (png : List Nat) (chunkData : List Nat) :
    List Nat :=
  png ++ u32le chunkData.length ++ rIPtTag ++ chunkData

/-- An rpng chunk as returned by `rpng_chunk_read_from_memory`. -/
structure RpngChunk where
  length : Nat
  data : List Nat
  deriving Repr, DecidableEq

/-- Modelled from the spec: `rpng_chunk_read_from_memory` scanning a PNG
byte stream for the `rIPt` chunk; a zero chunk (length 0, no data) when
absent. -/
def rpng_chunk_read_from_memory (png : List Nat) : RpngChunk :=
  let w := readU32le (png.drop 8)
  let h := readU32le (png.drop 12)
  let ch := (png.drop 16).getD 0 0
  let trailer := png.drop (17 + w * h * ch)
  if (trailer.drop 4).take 4 = rIPtTag then
    { length := readU32le trailer, data := (trailer.drop 8).take (readU32le trailer) }
  else { length := 0, data := [] }

/-- Modelled from the spec: `LoadImageFromMemory(".png", ...)`, the
external PNG decoder ("decode arbitrary PNG bytes to a pixel buffer").
A stream not starting with the PNG signature decodes to the zero
image. -/
def LoadImageFromMemory (bytes : List Nat) : Image :=
  if bytes.take 8 = pngSignature then
    let w := readU32le (bytes.drop 8)
    let h := readU32le (bytes.drop 12)
    let ch := (bytes.drop 16).getD 0 0
    { width := w, height := h,
      format := if ch = 3 then PIXELFORMAT_UNCOMPRESSED_R8G8B8
                else PIXELFORMAT_UNCOMPRESSED_R8G8B8A8,
      data := (bytes.drop 17).take (w * h * ch) }
  else zeroImage

/-- The channel count the savers derive from an image's pixel format
(`colorChannels` stays 0 for any other format). -/
def colorChannels (format : Nat) : Nat :=
  if format = PIXELFORMAT_UNCOMPRESSED_R8G8B8 then 3
  else if format = PIXELFORMAT_UNCOMPRESSED_R8G8B8A8 then 4
  else 0

/-- RGB byte stream to RGBA: alpha 255 added after each triple. -/
def rgbToRgba : List Nat → List Nat
  | r :: g :: b :: rest => r :: g :: b :: 255 :: rgbToRgba rest
  | rest => rest

/-- Modelled from the spec: `ImageFormat(&img, R8G8B8A8)`, the external
normalization of a pixel buffer to 4-channel RGBA. -/
def ImageFormatRGBA (img : Image) : Image :=
  if img.format = PIXELFORMAT_UNCOMPRESSED_R8G8B8A8 then img
  else if img.format = PIXELFORMAT_UNCOMPRESSED_R8G8B8 then
    { img with format := PIXELFORMAT_UNCOMPRESSED_R8G8B8A8, data := rgbToRgba img.data }
  else { img with format := PIXELFORMAT_UNCOMPRESSED_R8G8B8A8 }

/-- The 4 bytes of pixel `(x, y)` of an RGBA image. -/
def pixelAt (img : Image) (x y : Nat) : List Nat :=
  (img.data.drop ((y * img.width + x) * 4)).take 4

/-- Modelled from the spec: `ImageResizeNN`, the external
nearest-neighbor resampler ("resample a pixel buffer to new dimensions
using nearest-neighbor"). -/
def ImageResizeNN (img : Image) (w h : Nat) : Image :=
  { width := w, height := h, format := img.format,
    data := (List.range h).flatMap fun y =>
      (List.range w).flatMap fun x =>
        pixelAt img (x * img.width / w) (y * img.height / h) }

/-- Modelled from the spec: `ImageResize`, the external smooth
(area/interpolated) resampler; a concrete stand-in at the trusted
library boundary, kept distinct from the nearest-neighbor one. -/
def ImageResize (img : Image) (w h : Nat) : Image :=
  { width := w, height := h, format := img.format,
    data := (List.range h).flatMap fun y =>
      (List.range w).flatMap fun x =>
        pixelAt img ((2 * x + 1) * img.width / (2 * w))
          ((2 * y + 1) * img.height / (2 * h)) }

/-! ## Platform size schemes and pack initialization -/

/-- The five platform identifiers (`IconPlatform` in the source). -/
inductive IconPlatform
  | windows
  | macos
  | favicon
  | android
  | ios7
  deriving Repr, DecidableEq

/-- The published per-platform size tables (`icoSizesWindows` ..
`icoSizesiOS` in the source). -/
def platformSizes : IconPlatform → List Nat
  | .windows => [256, 128, 96, 64, 48, 32, 24, 16]
  | .macos => [1024, 512, 256, 128, 64, 48, 32, 16]
  | .favicon => [228, 152, 144, 120, 96, 72, 64, 32, 24, 16]
  | .android => [192, 144, 96, 72, 64, 48, 36, 32, 24, 16]
  | .ios7 => [180, 152, 120, 87, 80, 76, 58, 40, 29]

/-- raylib `DARKGRAY` as an RGBA pixel. -/
def DARKGRAY : List Nat := [80, 80, 80, 255]

/-- raylib `GRAY` as an RGBA pixel. -/
def GRAY : List Nat := [130, 130, 130, 255]

/-- One pixel of the invalid-slot placeholder: the
`ImageDrawRectangle(1, 1, size-2, size-2, GRAY)` interior over the
`GenImageColor(size, size, DARKGRAY)` fill. -/
def placeholderPixel (size x y : Nat) : List Nat :=
  if 1 ≤ x ∧ x + 1 < size ∧ 1 ≤ y ∧ y + 1 < size then GRAY else DARKGRAY

/-- The placeholder image generated for an invalid slot: a solid
DARKGRAY fill with a GRAY interior rectangle leaving a 1-pixel
border. -/
def GenImagePlaceholder (size : Nat) : Image :=
  { width := size, height := size, format := PIXELFORMAT_UNCOMPRESSED_R8G8B8A8,
    data := (List.range size).flatMap fun y =>
      (List.range size).flatMap fun x => placeholderPixel size x y }

/-- A freshly initialized pack entry: fixed size, invalid, placeholder
image, zeroed text buffer. -/
def mkPackEntry (size : Nat) : IconPackEntry :=
  { size := size, valid := false, image := GenImagePlaceholder size,
    text := List.replicate 40 0 }

/-- A pack with all slots invalid for a given size table (the loop body
of `InitIconPack`). -/
def mkFreshPack (sizes : List Nat) : IconPack :=
  { entries := sizes.map mkPackEntry, sizes := sizes }

/-- `InitIconPack`: pack creation for a platform. -/
def InitIconPack (platform : IconPlatform) : IconPack :=
  mkFreshPack (platformSizes platform)

/-! ## Missing-size generation (the Ctrl+G logic in `main`) -/

/-- Index of the first list element satisfying `p` (the break-on-match
search loops of the source). -/
def findFirstIdx (p : α → Bool) : List α → Option Nat
  | [] => none
  | a :: l => if p a then some 0 else (findFirstIdx p l).map (· + 1)

/-- The generation source: the first valid entry (the
`biggerValidSize` loop breaks at the lowest valid index). -/
def firstValidIdx (entries : List IconPackEntry) : Option Nat :=
  findFirstIdx (fun e => e.valid) entries

/-- `ImageCopy` of the source followed by the selected in-place resize
(`scaleAlgorythmActive`: 0 nearest-neighbor, 1 smooth; any other value
leaves the copied image unresized, exactly as the if/else-if chain
does). -/
def resampleImage (algo : Nat) (img : Image) (w h : Nat) : Image :=
  if algo = 0 then ImageResizeNN img w h
  else if algo = 1 then ImageResize img w h
  else img

/-- Generation of one entry: an already-valid entry is untouched; an
invalid one receives a copy of the source image resampled to the
entry's fixed size and becomes valid. -/
def generateEntry (source : Image) (algo : Nat) (e : IconPackEntry) :
    IconPackEntry :=
  if e.valid then e
  else { e with image := resampleImage algo source e.size e.size, valid := true }

/-- The generate-missing operation of `main` (lines 626..674):
`sizeListActive = 0` fills every invalid entry, otherwise only entry
`sizeListActive - 1`; a pack with no valid entry is left unchanged. -/
def GenerateMissingEntries (pack : IconPack) (sizeListActive : Nat)
    (algo : Nat) : IconPack :=
  match firstValidIdx pack.entries with
  | none => pack
  | some src =>
    let source := (pack.entries.getD src zeroEntry).image
    if sizeListActive = 0 then
      { pack with entries := pack.entries.map (generateEntry source algo) }
    else
      let t := sizeListActive - 1
      { pack with entries :=
          pack.entries.set t (generateEntry source algo (pack.entries.getD t zeroEntry)) }

/-! ## Loading decoded images into a pack (`LoadIconToPack`) -/

/-- The slot search of `LoadIconToPack`: reject non-square images, else
the first `k < pack->count` with `image.width == pack->sizes[k]`. -/
def matchIndexP (sizes : List Nat) (count : Nat) (img : Image) : Option Nat :=
  if img.width ≠ img.height then none
  else findFirstIdx (fun s => img.width == s) (sizes.take count)

/-- The slot value `LoadIconToPack` writes when populating slot
`index` from a decoded entry `d`: deep image copy forced to RGBA, slot
size re-bound, valid set, `memcpy` of the decoded text over the slot's
existing buffer. -/
def populatedEntry (pack : IconPack) (index : Nat) (d : IconPackEntry) :
    IconPackEntry :=
  { size := pack.sizes.getD index 0,
    valid := true,
    image := ImageFormatRGBA d.image,
    text := memcpyB (pack.entries.getD index zeroEntry).text d.text
              (strlenB d.text) }

/-- Processing of one decoded entry by `LoadIconToPack`: populate the
matched slot only when it is currently invalid. -/
def loadEntryStep (pack : IconPack) (d : IconPackEntry) : IconPack :=
  match matchIndexP pack.sizes pack.entries.length d.image with
  | none => pack
  | some index =>
    if (pack.entries.getD index zeroEntry).valid then pack
    else { pack with entries := pack.entries.set index (populatedEntry pack index d) }

/-- `LoadIconToPack` after the container codec produced its transient
decoded-entry list: each decoded entry processed in order. -/
def LoadIconToPack (pack : IconPack) (decoded : List IconPackEntry) : IconPack :=
  decoded.foldl loadEntryStep pack

/-! ## The ICO codec -/

/-- `IcoDirEntry`: one 16-byte ICO directory entry. -/
structure IcoDirEntry where
  width : Nat
  height : Nat
  colpalette : Nat
  reserved : Nat
  planes : Nat
  bpp : Nat
  size : Nat
  offset : Nat
  deriving Repr, DecidableEq

/-- The 16 bytes of an `IcoDirEntry` as laid out in the file
(single bytes, two `u16` fields, two `u32` fields, little-endian). -/
def icoDirEntryBytes (d : IcoDirEntry) : List Nat :=
  [d.width % 256, d.height % 256, d.colpalette % 256, d.reserved % 256] ++
    u16le d.planes ++ u16le d.bpp ++ u32le d.size ++ u32le d.offset

/-- The PNG payload the savers build for one entry: the encoded image,
with the `rIPt` text chunk appended when the export flag is set and the
entry's text buffer is non-empty (`text[0] != '\0'`). -/
def entryPngData (exportTextChunkChecked : Bool) (e : IconPackEntry) :
    List Nat :=
  let tempPngData := rpng_save_image_to_memory e.image.data e.image.width
    e.image.height (colorChannels e.image.format)
  if exportTextChunkChecked ∧ e.text.getD 0 0 ≠ 0 then
    rpng_chunk_write_from_memory tempPngData (textContent e.text)
  else tempPngData

/-- The directory entry `SaveIconPackToICO` fills for a valid entry:
width/height bytes from `image.width` with 256 written as 0, bpp 32,
payload size and running offset. -/
def mkIcoDirEntry (e : IconPackEntry) (payloadLen offset : Nat) : IcoDirEntry :=
  { width := if e.image.width = 256 then 0 else e.image.width,
    height := if e.image.width = 256 then 0 else e.image.width,
    colpalette := 0, reserved := 0, planes := 0, bpp := 32,
    size := payloadLen, offset := offset }

/-- The concatenated directory bytes: one 16-byte entry per valid
entry, offsets accumulating each payload's size. -/
def icoDirBytes (flag : Bool) : List IconPackEntry → Nat → List Nat
  | [], _ => []
  | e :: rest, offset =>
    icoDirEntryBytes (mkIcoDirEntry e (entryPngData flag e).length offset) ++
      icoDirBytes flag rest (offset + (entryPngData flag e).length)

/-- `SaveIconPackToICO`: `none` models the early return (no file write)
when the pack has no valid entry; otherwise the full ICO byte stream:
6-byte header, the directory, then all payloads in directory order. -/
def SaveIconPackToICO (entries : List IconPackEntry)
    (exportTextChunkChecked : Bool) : Option (List Nat) :=
  let valids := entries.filter fun e => e.valid
  if valids.length = 0 then none
  else
    some (u16le 0 ++ u16le 1 ++ u16le valids.length ++
      icoDirBytes exportTextChunkChecked valids (6 + 16 * valids.length) ++
      (valids.map (entryPngData exportTextChunkChecked)).flatten)

/-- Parse one 16-byte ICO directory entry from the head of a stream. -/
def readIcoDirEntry (b : List Nat) : IcoDirEntry :=
  { width := b.getD 0 0, height := b.getD 1 0,
    colpalette := b.getD 2 0, reserved := b.getD 3 0,
    planes := readU16le (b.drop 4), bpp := readU16le (b.drop 6),
    size := readU32le (b.drop 8), offset := readU32le (b.drop 12) }

/-- Decoding of one ICO payload by `LoadIconPackFromICO`: the PNG
signature check, then the image decode and the `rIPt` chunk read with
its `MAX_IMAGE_TEXT_SIZE` truncation; a payload failing the signature
check leaves the `calloc`-ed entry untouched. -/
def loadIcoEntry (payload : List Nat) : IconPackEntry :=
  if payload.take 8 = pngSignature then
    { size := (LoadImageFromMemory payload).width, valid := false,
      image := LoadImageFromMemory payload,
      text := memcpyB (List.replicate 40 0)
        (rpng_chunk_read_from_memory payload).data
        (if (rpng_chunk_read_from_memory payload).length < MAX_IMAGE_TEXT_SIZE
          then (rpng_chunk_read_from_memory payload).length
          else MAX_IMAGE_TEXT_SIZE - 1) }
  else zeroEntry

/-- The sequential payload reads of `LoadIconPackFromICO`: for each
directory entry, `fread` its `size` bytes from the current stream
position. -/
def loadIcoPayloads : List Nat → List Nat → List IconPackEntry
  | _, [] => []
  | stream, s :: rest => loadIcoEntry (stream.take s) :: loadIcoPayloads (stream.drop s) rest

/-- The payload sizes declared by the ICO directory: the `size` field
of each of the `imageCount` 16-byte directory entries. -/
def icoDirSizes (bytes : List Nat) : List Nat :=
  (List.range (readU16le (bytes.drop 4))).map fun i =>
    (readIcoDirEntry ((bytes.drop 6).drop (16 * i))).size

/-- `LoadIconPackFromICO` on a byte stream: header, `imageCount`
directory entries, then the payloads read sequentially.  Returns the
entry array together with the count stored through the `count` out
parameter (`*count = icoHeader.imageCount`, set before the loop and
never reduced). -/
def LoadIconPackFromICO (bytes : List Nat) : List IconPackEntry × Nat :=
  (loadIcoPayloads (bytes.drop (6 + 16 * readU16le (bytes.drop 4)))
    (icoDirSizes bytes),
   readU16le (bytes.drop 4))

/-- The bytes the i-th sequential payload `fread` of
`LoadIconPackFromICO` consumes. -/
def icoPayloadAt (bytes : List Nat) (i : Nat) : List Nat :=
  ((bytes.drop (6 + 16 * readU16le (bytes.drop 4))).drop
    ((icoDirSizes bytes).take i).sum).take ((icoDirSizes bytes).getD i 0)

/-- Total PNG payload byte length of an entry list. -/
def pngLenSum (flag : Bool) (l : List IconPackEntry) : Nat :=
  (l.map fun e => (entryPngData flag e).length).sum

/-! ## The ICNS encoder -/

/-- The "modern, PNG-only" OSType tag `SaveIconPackToICNS` selects for a
supported image width; `none` for the unsupported sizes that hit the
`default:` branch of the switch. -/
def osTypeFor : Nat → Option (List Nat)
  | 16 => some [0x69, 0x63, 0x70, 0x34]      -- icp4
  | 32 => some [0x69, 0x63, 0x31, 0x31]      -- ic11
  | 48 => some [0x53, 0x42, 0x32, 0x34]      -- SB24
  | 64 => some [0x69, 0x63, 0x31, 0x32]      -- ic12
  | 128 => some [0x69, 0x63, 0x30, 0x37]     -- ic07
  | 256 => some [0x69, 0x63, 0x31, 0x33]     -- ic13
  | 512 => some [0x69, 0x63, 0x31, 0x34]     -- ic14
  | 1024 => some [0x69, 0x63, 0x31, 0x30]    -- ic10
  | _ => none

/-- The chunk-writing loop of `SaveIconPackToICNS`.  `icnType` is the
mutable 4-byte tag variable (initially zeroed): the `default:` case of
the switch only logs a warning, so an entry with an unsupported width
is still written, under whatever tag the variable last held. -/
def icnsChunksAux (tag : List Nat) : List (List Nat × Nat) → List Nat
  | [] => []
  | (png, width) :: rest =>
    let tag' := (osTypeFor width).getD tag
    tag' ++ u32be (png.length + 8) ++ png ++ icnsChunksAux tag' rest

/-- `SaveIconPackToICNS`: `none` models the early return when the pack
has no valid entry; otherwise the `"icns"` signature, the big-endian
declared total file size `8 + 8*N + Σ payload sizes` accumulated over
ALL valid entries, then the chunks. -/
def SaveIconPackToICNS (entries : List IconPackEntry) : Option (List Nat) :=
  let valids := entries.filter fun e => e.valid
  if valids.length = 0 then none
  else
    let pngs := valids.map fun e =>
      rpng_save_image_to_memory e.image.data e.image.width e.image.height
        (colorChannels e.image.format)
    let icnsFileSize := 8 + 8 * valids.length + (pngs.map List.length).sum
    some ([0x69, 0x63, 0x6e, 0x73] ++ u32be icnsFileSize ++
      icnsChunksAux [0, 0, 0, 0]
        (pngs.zip (valids.map fun e => e.image.width)))

/-! ## Command-line size-argument validation (`ProcessCommandLine`) -/

/-- The per-value acceptance test of the `--out-sizes` and
`--extract-size` loops: `(value > 0) && (value <= 256)`. -/
def sizeValueAccepted (value : Int) : Bool := 0 < value ∧ value ≤ 256

/-- The `--out-sizes` / `--extract-size` processing loop: the sizes
array starts as 64 zeroed `int` cells; an accepted value `values[j]` is
stored at index `j` and bumps the counter; a rejected value only emits
a warning. -/
def processSizeValues (values : List Int) : List Int × Nat :=
  (List.range values.length).foldl
    (fun (st : List Int × Nat) j =>
      let value := values.getD j 0
      if sizeValueAccepted value then (st.1.set j value, st.2 + 1) else st)
    (List.replicate 64 0, 0)

/-- The size values the rest of the command-line flow consumes: the
first `count` cells of the array. -/
def effectiveSizes (values : List Int) : List Int :=
  (processSizeValues values).1.take (processSizeValues values).2

/-- The 40-byte text buffer obtained by `memcpy`-ing a decoded `rIPt`
chunk (the NUL-free content of `t`) over a `calloc`-ed buffer. -/
def freshTextBuf (t : List Nat) : List Nat :=
  memcpyB (List.replicate 40 0) (textContent t) (strlenB t)

/-! ## Concrete fixtures used by witness and counterexample theorems -/

/-- A 1×1 RGBA image. -/
def wimgA : Image := { width := 1, height := 1, format := 7, data := [1, 2, 3, 4] }

/-- Another 1×1 RGBA image with different pixels. -/
def wimgB : Image := { width := 1, height := 1, format := 7, data := [5, 6, 7, 8] }

/-- A valid size-1 entry holding `wimgA`. -/
def wentryA : IconPackEntry :=
  { size := 1, valid := true, image := wimgA, text := List.replicate 40 0 }

/-- An invalid decoded size-1 entry holding `wimgB`. -/
def wentryB : IconPackEntry :=
  { size := 1, valid := false, image := wimgB, text := List.replicate 40 0 }

/-- A one-slot pack whose single slot is occupied. -/
def wpackA : IconPack := { entries := [wentryA], sizes := [1] }

/-- A decoded 3×3 entry (no matching slot in `mkFreshPack [1]`). -/
def wentry3 : IconPackEntry :=
  { size := 3, valid := false,
    image := { width := 3, height := 3, format := 7, data := [] },
    text := List.replicate 40 0 }

/-- A valid 24×24 entry: 24 has no encode-supported ICNS OSType. -/
def wentry24 : IconPackEntry :=
  { size := 24, valid := true,
    image := { width := 24, height := 24, format := 7, data := [] },
    text := List.replicate 40 0 }

/-- A valid 2×2 RGBA entry carrying the text "hi". -/
def wentryHi : IconPackEntry :=
  { size := 2, valid := true,
    image := { width := 2, height := 2, format := 7, data := List.replicate 16 9 },
    text := [104, 105] ++ List.replicate 38 0 }

/-- A two-slot pack with the size-2 slot occupied by `wentryHi` and the
size-1 slot still invalid. -/
def wpackHi : IconPack := { entries := [wentryHi, mkPackEntry 1], sizes := [2, 1] }

/-- A 23-byte ICO stream declaring one entry whose 1-byte payload fails
the PNG signature check. -/
def wbytesBadIco : List Nat :=
  [0, 0, 1, 0, 1, 0, 1, 1, 0, 0, 0, 0, 32, 0, 1, 0, 0, 0, 22, 0, 0, 0, 0]

/-- The ICO byte stream `SaveIconPackToICO` produces for the valid
entries of `wpackHi` with the text-export flag set. -/
def wicoHiBytes : List Nat := (SaveIconPackToICO wpackHi.entries true).getD []

/-! ## General helper lemmas -/

theorem readU16le_u16le_append (n : Nat) (rest : List Nat) :
    readU16le (u16le n ++ rest) = n % 65536 := by
  simp only [readU16le, u16le, List.cons_append, List.getD, List.get?, Option.getD_some]
  omega

theorem readU32le_u32le_append (n : Nat) (rest : List Nat) :
    readU32le (u32le n ++ rest) = n % 4294967296 := by
  simp only [readU32le, u32le, List.cons_append, List.getD, List.get?, Option.getD_some]
  omega

theorem readU32be_u32be_append (n : Nat) (rest : List Nat) :
    readU32be (u32be n ++ rest) = n % 4294967296 := by
  simp only [readU32be, u32be, List.cons_append, List.getD, List.get?, Option.getD_some]
  omega

theorem getD_map_of_lt {α β : Type} (f : α → β) :
    ∀ (l : List α) (i : Nat), i < l.length → ∀ (d : β) (d' : α),
      (l.map f).getD i d = f (l.getD i d')
  | [], i, hi, _, _ => absurd hi (by simp)
  | a :: l, 0, _, d, d' => rfl
  | a :: l, i + 1, hi, d, d' =>
    getD_map_of_lt f l i (by simpa using hi) d d'

theorem getD_set_self {α : Type} :
    ∀ (l : List α) (i : Nat), i < l.length → ∀ (v d : α),
      (l.set i v).getD i d = v
  | [], i, hi, _, _ => absurd hi (by simp)
  | a :: l, 0, _, v, d => rfl
  | a :: l, i + 1, hi, v, d =>
    getD_set_self l i (by simpa using hi) v d

theorem getD_set_ne {α : Type} :
    ∀ (l : List α) (i j : Nat), i ≠ j → ∀ (v d : α),
      (l.set i v).getD j d = l.getD j d
  | [], _, _, _, _, _ => by simp
  | a :: l, 0, 0, h, _, _ => absurd rfl h
  | a :: l, 0, j + 1, _, v, d => rfl
  | a :: l, i + 1, 0, _, v, d => rfl
  | a :: l, i + 1, j + 1, h, v, d =>
    getD_set_ne l i j (fun hh => h (by omega)) v d

theorem set_getD_self {α : Type} :
    ∀ (l : List α) (i : Nat) (d : α), l.set i (l.getD i d) = l
  | [], _, _ => rfl
  | a :: l, 0, d => rfl
  | a :: l, i + 1, d => by
    simpa using set_getD_self l i d

theorem getD_mem_of_lt {α : Type} :
    ∀ (l : List α) (i : Nat), i < l.length → ∀ (d : α), l.getD i d ∈ l
  | [], i, hi, _ => absurd hi (by simp)
  | a :: l, 0, _, d => by simp
  | a :: l, i + 1, hi, d => by
    simpa using Or.inr (getD_mem_of_lt l i (by simpa using hi) d)

theorem findFirstIdx_spec {α : Type} (p : α → Bool) (d : α) :
    ∀ (l : List α) (i : Nat), findFirstIdx p l = some i →
      i < l.length ∧ p (l.getD i d) = true ∧
        ∀ j, j < i → p (l.getD j d) = false
  | [], i, h => by simp [findFirstIdx] at h
  | a :: l, i, h => by
    by_cases ha : p a = true
    · simp [findFirstIdx, ha] at h
      subst h
      exact ⟨by simp, ha, fun j hj => by omega⟩
    · simp [findFirstIdx, ha] at h
      obtain ⟨k, hk, rfl⟩ := h
      obtain ⟨h1, h2, h3⟩ := findFirstIdx_spec p d l k hk
      refine ⟨by simpa using h1, h2, ?_⟩
      intro j hj
      match j with
      | 0 => simpa using ha
      | j + 1 => exact h3 j (by omega)

theorem findFirstIdx_eq_none {α : Type} (p : α → Bool) :
    ∀ (l : List α), (∀ a ∈ l, p a = false) → findFirstIdx p l = none
  | [], _ => rfl
  | a :: l, h => by
    have ha : p a = false := h a (by simp)
    simp [findFirstIdx, ha]
    exact findFirstIdx_eq_none p l fun b hb => h b (by simp [hb])

theorem findFirstIdx_isSome {α : Type} (p : α → Bool) :
    ∀ (l : List α), (∃ a ∈ l, p a = true) →
      ∃ k, findFirstIdx p l = some k
  | [], h => by simp at h
  | a :: l, h => by
    by_cases ha : p a = true
    · exact ⟨0, by simp [findFirstIdx, ha]⟩
    · obtain ⟨b, hb, hpb⟩ := h
      have hbl : b ∈ l := by
        rcases List.mem_cons.1 hb with rfl | hbl
        · exact absurd hpb ha
        · exact hbl
      obtain ⟨k, hk⟩ := findFirstIdx_isSome p l ⟨b, hbl, hpb⟩
      exact ⟨k + 1, by simp [findFirstIdx, ha, hk]⟩

theorem findFirstIdx_all_valid {α : Type} (p : α → Bool) (a : α) (l : List α)
    (h : p a = true) : findFirstIdx p (a :: l) = some 0 := by
  simp [findFirstIdx, h]

/-- With a `Nodup` list, the first index holding a present value is the
index it is known to sit at. -/
theorem findFirstIdx_nodup (w : Nat) :
    ∀ (l : List Nat), l.Nodup → ∀ i, i < l.length → l.getD i 0 = w →
      findFirstIdx (fun s => w == s) l = some i
  | [], _, i, hi, _ => absurd hi (by simp)
  | s :: l, hnd, 0, _, hw => by
    simp [findFirstIdx, hw.symm]
  | s :: l, hnd, i + 1, hi, hw => by
    have hwl : w ∈ l := by
      have := getD_mem_of_lt l i (by simpa using hi) 0
      rwa [show l.getD i 0 = w from hw] at this
    have hsw : s ≠ w := by
      intro h
      subst h
      exact (List.nodup_cons.1 hnd).1 hwl
    have hrec := findFirstIdx_nodup w l (List.nodup_cons.1 hnd).2 i
      (by simpa using hi) hw
    simp [findFirstIdx, hrec]
    exact fun h => hsw h.symm

theorem strlenB_le_length : ∀ (l : List Nat), strlenB l ≤ l.length
  | [] => le_refl _
  | b :: l => by
    by_cases hb : b = 0
    · simp [strlenB, hb]
    · simpa [strlenB, hb, Nat.succ_le_succ_iff] using strlenB_le_length l

theorem length_textContent (l : List Nat) :
    (textContent l).length = strlenB l := by
  simp [textContent, Nat.min_eq_left (strlenB_le_length l)]

theorem textContent_ne_zero :
    ∀ (l : List Nat), ∀ b ∈ textContent l, b ≠ 0
  | [], b, hb => by simp [textContent] at hb
  | a :: l, b, hb => by
    by_cases ha : a = 0
    · simp [textContent, strlenB, ha] at hb
    · simp only [textContent, strlenB, ha, if_false, List.take_succ_cons,
        List.mem_cons] at hb
      rcases hb with rfl | hb
      · exact ha
      · exact textContent_ne_zero l b hb

theorem strlenB_append_of_ne_zero :
    ∀ (c rest : List Nat), (∀ b ∈ c, b ≠ 0) →
      strlenB (c ++ rest) = c.length + strlenB rest
  | [], rest, _ => by simp
  | a :: c, rest, h => by
    have ha : a ≠ 0 := h a (by simp)
    have := strlenB_append_of_ne_zero c rest fun b hb => h b (by simp [hb])
    simp [strlenB, ha, this]
    omega

theorem strlenB_replicate_zero (n : Nat) : strlenB (List.replicate n 0) = 0 := by
  cases n with
  | zero => rfl
  | succ m => simp [List.replicate, strlenB]

/-- The text buffer produced by copying `n = strlenB src` bytes of a
NUL-free prefix onto a zeroed 40-byte buffer has exactly that prefix as
content. -/
theorem textContent_memcpy_fresh (t : List Nat) (h : strlenB t ≤ 39) :
    textContent (memcpyB (List.replicate 40 0) (textContent t) (strlenB t)) =
      textContent t := by
  have hlen : (textContent t).length = strlenB t := length_textContent t
  have htake : (textContent t).take (strlenB t) = textContent t := by
    rw [← hlen]; exact List.take_length _
  have hdroplen : (List.replicate 40 (0 : Nat)).drop (strlenB t) =
      List.replicate (40 - strlenB t) 0 := by
    simp only [List.drop_replicate]
  rw [memcpyB, htake, hdroplen]
  have hz : strlenB (textContent t ++ List.replicate (40 - strlenB t) 0) =
      strlenB t := by
    rw [strlenB_append_of_ne_zero _ _ (textContent_ne_zero t),
      strlenB_replicate_zero, hlen]
    omega
  rw [textContent, hz, List.take_append_eq_append_take, htake, hlen]
  simp

/-! ## Step lemmas for `LoadIconToPack` -/

theorem loadEntryStep_sizes (pack : IconPack) (d : IconPackEntry) :
    (loadEntryStep pack d).sizes = pack.sizes := by
  unfold loadEntryStep
  split
  · rfl
  · split <;> rfl

theorem loadEntryStep_length (pack : IconPack) (d : IconPackEntry) :
    (loadEntryStep pack d).entries.length = pack.entries.length := by
  unfold loadEntryStep
  split
  · rfl
  · split
    · rfl
    · simp

theorem loadEntryStep_getD_ne (pack : IconPack) (d : IconPackEntry) (i : Nat)
    (h : matchIndexP pack.sizes pack.entries.length d.image ≠ some i) :
    (loadEntryStep pack d).entries.getD i zeroEntry =
      pack.entries.getD i zeroEntry := by
  unfold loadEntryStep
  split
  · rfl
  · next index heq =>
      have hne : index ≠ i := fun hh => h (by rw [heq, hh])
      split
      · rfl
      · exact getD_set_ne _ index i hne _ _

theorem loadEntryStep_getD_of_valid (pack : IconPack) (d : IconPackEntry)
    (i : Nat) (h : (pack.entries.getD i zeroEntry).valid = true) :
    (loadEntryStep pack d).entries.getD i zeroEntry =
      pack.entries.getD i zeroEntry := by
  unfold loadEntryStep
  split
  · rfl
  · next index heq =>
      split
      · rfl
      · next hv =>
          have hne : index ≠ i := fun hh => hv (by rw [hh]; exact h)
          exact getD_set_ne _ index i hne _ _

theorem loadFold_sizes (decoded : List IconPackEntry) :
    ∀ pack : IconPack, (LoadIconToPack pack decoded).sizes = pack.sizes := by
  induction decoded with
  | nil => intro pack; rfl
  | cons d rest ih =>
    intro pack
    show (LoadIconToPack (loadEntryStep pack d) rest).sizes = pack.sizes
    rw [ih, loadEntryStep_sizes]

theorem loadFold_length (decoded : List IconPackEntry) :
    ∀ pack : IconPack,
      (LoadIconToPack pack decoded).entries.length = pack.entries.length := by
  induction decoded with
  | nil => intro pack; rfl
  | cons d rest ih =>
    intro pack
    show (LoadIconToPack (loadEntryStep pack d) rest).entries.length =
      pack.entries.length
    rw [ih, loadEntryStep_length]

/-- A slot already holding a valid image survives any load unchanged
(the populate branch requires the slot to be invalid). -/
theorem loadFold_valid_slot_preserved (decoded : List IconPackEntry) :
    ∀ (pack : IconPack) (i : Nat),
      (pack.entries.getD i zeroEntry).valid = true →
      (LoadIconToPack pack decoded).entries.getD i zeroEntry =
        pack.entries.getD i zeroEntry := by
  induction decoded with
  | nil => intro pack i _; rfl
  | cons d rest ih =>
    intro pack i h
    show (LoadIconToPack (loadEntryStep pack d) rest).entries.getD i zeroEntry =
      pack.entries.getD i zeroEntry
    have hstep := loadEntryStep_getD_of_valid pack d i h
    rw [ih (loadEntryStep pack d) i (by rw [hstep]; exact h), hstep]

/-- A slot no decoded entry matches survives the load unchanged. -/
theorem loadFold_unmatched_slot_preserved (decoded : List IconPackEntry) :
    ∀ (pack : IconPack) (i : Nat),
      (∀ d ∈ decoded,
        matchIndexP pack.sizes pack.entries.length d.image ≠ some i) →
      (LoadIconToPack pack decoded).entries.getD i zeroEntry =
        pack.entries.getD i zeroEntry := by
  induction decoded with
  | nil => intro pack i _; rfl
  | cons d rest ih =>
    intro pack i h
    show (LoadIconToPack (loadEntryStep pack d) rest).entries.getD i zeroEntry =
      pack.entries.getD i zeroEntry
    have hstep := loadEntryStep_getD_ne pack d i (h d (by simp))
    have hrest : ∀ d' ∈ rest,
        matchIndexP (loadEntryStep pack d).sizes
          (loadEntryStep pack d).entries.length d'.image ≠ some i := by
      intro d' hd'
      rw [loadEntryStep_sizes, loadEntryStep_length]
      exact h d' (by simp [hd'])
    rw [ih (loadEntryStep pack d) i hrest, hstep]

/-! ## Claim theorems -/

/-- C5: for every supported platform, `InitIconPack` creates exactly one
entry per element of the platform's published size list (whose exact
values are recorded below), binds `entries[i].size` to the i-th size,
and initializes every entry invalid with the placeholder image. -/
theorem C5_initIconPack_scheme (p : IconPlatform) :
    (InitIconPack p).entries.length = (platformSizes p).length ∧
    platformSizes IconPlatform.windows = [256, 128, 96, 64, 48, 32, 24, 16] ∧
    platformSizes IconPlatform.macos = [1024, 512, 256, 128, 64, 48, 32, 16] ∧
    platformSizes IconPlatform.favicon =
      [228, 152, 144, 120, 96, 72, 64, 32, 24, 16] ∧
    platformSizes IconPlatform.android =
      [192, 144, 96, 72, 64, 48, 36, 32, 24, 16] ∧
    platformSizes IconPlatform.ios7 = [180, 152, 120, 87, 80, 76, 58, 40, 29] ∧
    ∀ i, i < (InitIconPack p).entries.length →
      ((InitIconPack p).entries.getD i zeroEntry).size =
        (platformSizes p).getD i 0 ∧
      ((InitIconPack p).entries.getD i zeroEntry).valid = false ∧
      ((InitIconPack p).entries.getD i zeroEntry).image =
        GenImagePlaceholder ((platformSizes p).getD i 0) := by
  refine ⟨by simp [InitIconPack, mkFreshPack], rfl, rfl, rfl, rfl, rfl, ?_⟩
  intro i hi
  have hlen : i < (platformSizes p).length := by
    simpa [InitIconPack, mkFreshPack] using hi
  have hmap : (InitIconPack p).entries.getD i zeroEntry =
      mkPackEntry ((platformSizes p).getD i 0) := by
    simpa [InitIconPack, mkFreshPack] using
      getD_map_of_lt mkPackEntry (platformSizes p) i hlen zeroEntry 0
  rw [hmap]
  exact ⟨rfl, rfl, rfl⟩

/-- C5 witness: the Windows pack instantiation at slot 0. -/
theorem C5_initIconPack_scheme_witness :
    0 < (InitIconPack IconPlatform.windows).entries.length ∧
    ((InitIconPack IconPlatform.windows).entries.getD 0 zeroEntry).size =
      (platformSizes IconPlatform.windows).getD 0 0 :=
  ⟨by simp [InitIconPack, mkFreshPack, platformSizes],
   ((C5_initIconPack_scheme IconPlatform.windows).2.2.2.2.2.2 0
     (by simp [InitIconPack, mkFreshPack, platformSizes])).1⟩

/-- C7: loading a single decoded image that is non-square, or whose
square dimension matches no slot size of the active pack's scheme,
leaves the pack completely unchanged (the image is never placed into
any slot). -/
theorem C7_geometry_mismatch_unchanged (pack : IconPack) (d : IconPackEntry)
    (h : d.image.width ≠ d.image.height ∨
      d.image.width ∉ pack.sizes.take pack.entries.length) :
    LoadIconToPack pack [d] = pack := by
  show loadEntryStep pack d = pack
  unfold loadEntryStep
  have hm : matchIndexP pack.sizes pack.entries.length d.image = none := by
    unfold matchIndexP
    by_cases hsq : d.image.width ≠ d.image.height
    · simp [hsq]
    · rw [if_neg hsq]
      have h2 : d.image.width ∉ pack.sizes.take pack.entries.length := by
        rcases h with h | h
        · exact absurd h hsq
        · exact h
      refine findFirstIdx_eq_none _ _ fun s hs => ?_
      simp only [beq_eq_false_iff_ne, ne_eq]
      intro heq
      exact h2 (by rw [heq]; exact hs)
  rw [hm]

/-- C7 witness: a decoded 3×3 image finds no slot in a fresh
single-size pack. -/
theorem C7_geometry_mismatch_unchanged_witness :
    LoadIconToPack (mkFreshPack [1]) [wentry3] = mkFreshPack [1] :=
  C7_geometry_mismatch_unchanged _ _ (Or.inr (by decide))

/-- C6: a pack slot already holding a valid image is never overwritten
by a load: after processing any decoded-entry list, a valid slot's
entry (size, validity flag, image, text) is exactly what it was. -/
theorem C6_first_loaded_wins (pack : IconPack) (decoded : List IconPackEntry)
    (i : Nat) (h : (pack.entries.getD i zeroEntry).valid = true) :
    (LoadIconToPack pack decoded).entries.getD i zeroEntry =
      pack.entries.getD i zeroEntry :=
  loadFold_valid_slot_preserved decoded pack i h

/-- C6 witness: a matching decoded image cannot displace an occupied
slot of a one-entry pack. -/
theorem C6_first_loaded_wins_witness :
    (LoadIconToPack wpackA [wentryB]).entries.getD 0 zeroEntry =
      wpackA.entries.getD 0 zeroEntry :=
  C6_first_loaded_wins _ _ 0 (by decide)

/-- C2: contrary to the claim, `SaveIconPackToICNS` does not omit a
valid entry whose dimension has no supported OSType mapping: on a pack
holding a single valid 24×24 entry (24 is not an encode-supported
size), the saver still writes the file with a chunk for that entry,
tagged with the zero-initialized `icnType` bytes, and counts the
entry's bytes in the declared total file size (33 = 8 + 8 + 17 instead
of the header-only 8 the claim would require). -/
theorem C2_icns_unsupported_size_still_written :
    osTypeFor 24 = none ∧
    SaveIconPackToICNS [wentry24] =
      some ([0x69, 0x63, 0x6e, 0x73] ++ u32be 33 ++
        ([0, 0, 0, 0] ++ u32be 25 ++ rpng_save_image_to_memory [] 24 24 4)) ∧
    (((SaveIconPackToICNS [wentry24]).getD []).drop 8).take 4 = [0, 0, 0, 0] ∧
    readU32be (((SaveIconPackToICNS [wentry24]).getD []).drop 4) = 33 := by
  refine ⟨rfl, by decide, by decide, by decide⟩

/-- C10: the `--out-sizes` / `--extract-size` acceptance test is indeed
`0 < v ∧ v ≤ 256` (512 and 1024 are rejected), but a rejected value
does contribute to the consumed size list: accepted values are stored
at their original argument index while only the counter is compacted,
so with input `300,32` the consumed prefix becomes `[0]` (a zero-size
cell, the accepted 32 dropped), and with input `0,32` the rejected
value 0 itself appears as the consumed size. -/
theorem C10_size_validation_index_skew :
    sizeValueAccepted 32 = true ∧
    sizeValueAccepted 256 = true ∧
    sizeValueAccepted 0 = false ∧
    sizeValueAccepted 257 = false ∧
    sizeValueAccepted 300 = false ∧
    sizeValueAccepted 512 = false ∧
    sizeValueAccepted 1024 = false ∧
    sizeValueAccepted (-5) = false ∧
    effectiveSizes [300, 32] = [0] ∧
    effectiveSizes [0, 32] = [0] ∧
    effectiveSizes [512, 1024] = [] ∧
    effectiveSizes [256, 16] = [256, 16] := by
  refine ⟨rfl, rfl, rfl, rfl, rfl, rfl, rfl, rfl, by decide, by decide,
    by decide, by decide⟩

/-! ## Generation lemmas -/

theorem generateEntry_valid (s : Image) (a : Nat) (e : IconPackEntry) :
    (generateEntry s a e).valid = true := by
  unfold generateEntry
  split
  · next hv => exact hv
  · rfl

theorem generateEntry_of_valid (s : Image) (a : Nat) (e : IconPackEntry)
    (h : e.valid = true) : generateEntry s a e = e := by
  unfold generateEntry
  exact if_pos h

theorem map_generateEntry_of_all_valid (s : Image) (a : Nat) :
    ∀ l : List IconPackEntry, (∀ e ∈ l, e.valid = true) →
      l.map (generateEntry s a) = l
  | [], _ => rfl
  | e :: l, h => by
    rw [List.map_cons, generateEntry_of_valid s a e (h e (by simp)),
      map_generateEntry_of_all_valid s a l fun x hx => h x (by simp [hx])]

theorem gen_none (pack : IconPack) (mode algo : Nat)
    (h : firstValidIdx pack.entries = none) :
    GenerateMissingEntries pack mode algo = pack := by
  simp [GenerateMissingEntries, h]

theorem gen_all_entries (pack : IconPack) (algo src : Nat)
    (h : firstValidIdx pack.entries = some src) :
    GenerateMissingEntries pack 0 algo =
      { pack with
        entries := pack.entries.map
                     (generateEntry (pack.entries.getD src zeroEntry).image algo) } := by
  simp [GenerateMissingEntries, h]

theorem gen_one_entries (pack : IconPack) (mode algo src : Nat)
    (h : firstValidIdx pack.entries = some src) (hm : mode ≠ 0) :
    GenerateMissingEntries pack mode algo =
      { pack with
        entries := pack.entries.set (mode - 1)
                     (generateEntry (pack.entries.getD src zeroEntry).image algo
                       (pack.entries.getD (mode - 1) zeroEntry)) } := by
  simp [GenerateMissingEntries, h, hm]

/-- C3: generate-missing selects the first valid entry (lowest index)
as the resampling source; with the ALL selector it fills exactly the
invalid entries with the source image resampled to each entry's fixed
size by the requested algorithm (marking them valid, size and text
untouched), with a single-target selector it fills only that entry and
touches no other slot, it never overwrites an already-valid entry, and
it is a no-op when the pack has no valid entry. -/
theorem C3_generate_missing (pack : IconPack) (mode algo : Nat) :
    (firstValidIdx pack.entries = none →
      GenerateMissingEntries pack mode algo = pack) ∧
    (∀ src, firstValidIdx pack.entries = some src →
      (pack.entries.getD src zeroEntry).valid = true ∧
      ∀ j, j < src → (pack.entries.getD j zeroEntry).valid = false) ∧
    (∀ i, (pack.entries.getD i zeroEntry).valid = true →
      (GenerateMissingEntries pack mode algo).entries.getD i zeroEntry =
        pack.entries.getD i zeroEntry) ∧
    (∀ src, firstValidIdx pack.entries = some src → mode = 0 →
      ∀ i, i < pack.entries.length →
        (pack.entries.getD i zeroEntry).valid = false →
        ((GenerateMissingEntries pack mode algo).entries.getD i zeroEntry).valid
            = true ∧
        ((GenerateMissingEntries pack mode algo).entries.getD i zeroEntry).image
            = resampleImage algo (pack.entries.getD src zeroEntry).image
                (pack.entries.getD i zeroEntry).size
                (pack.entries.getD i zeroEntry).size ∧
        ((GenerateMissingEntries pack mode algo).entries.getD i zeroEntry).size
            = (pack.entries.getD i zeroEntry).size ∧
        ((GenerateMissingEntries pack mode algo).entries.getD i zeroEntry).text
            = (pack.entries.getD i zeroEntry).text) ∧
    (∀ src, firstValidIdx pack.entries = some src → mode ≠ 0 →
      (∀ i, i ≠ mode - 1 →
        (GenerateMissingEntries pack mode algo).entries.getD i zeroEntry =
          pack.entries.getD i zeroEntry) ∧
      (mode - 1 < pack.entries.length →
        (pack.entries.getD (mode - 1) zeroEntry).valid = false →
        ((GenerateMissingEntries pack mode algo).entries.getD (mode - 1)
            zeroEntry).valid = true ∧
        ((GenerateMissingEntries pack mode algo).entries.getD (mode - 1)
            zeroEntry).image =
          resampleImage algo (pack.entries.getD src zeroEntry).image
            (pack.entries.getD (mode - 1) zeroEntry).size
            (pack.entries.getD (mode - 1) zeroEntry).size)) := by
  refine ⟨gen_none pack mode algo, ?_, ?_, ?_, ?_⟩
  · intro src h
    obtain ⟨h1, h2, h3⟩ :=
      findFirstIdx_spec (fun e => e.valid) zeroEntry pack.entries src
        (by simpa [firstValidIdx] using h)
    exact ⟨h2, fun j hj => by simpa using h3 j hj⟩
  · intro i hi
    cases h : firstValidIdx pack.entries with
    | none => rw [gen_none pack mode algo h]
    | some src =>
      by_cases hm : mode = 0
      · subst hm
        rw [gen_all_entries pack algo src h]
        by_cases hlen : i < pack.entries.length
        · show (pack.entries.map _).getD i zeroEntry = _
          rw [getD_map_of_lt _ pack.entries i hlen zeroEntry zeroEntry,
            generateEntry_of_valid _ _ _ hi]
        · show (pack.entries.map _).getD i zeroEntry = _
          rw [List.getD_eq_default _ _ (by simpa using le_of_not_lt hlen),
            List.getD_eq_default _ _ (le_of_not_lt hlen)]
      · rw [gen_one_entries pack mode algo src h hm]
        by_cases hti : mode - 1 = i
        · subst hti
          show (pack.entries.set _ _).getD _ zeroEntry = _
          by_cases hlen : mode - 1 < pack.entries.length
          · rw [getD_set_self _ _ hlen, generateEntry_of_valid _ _ _ hi]
          · rw [List.set_eq_of_length_le (le_of_not_lt hlen)]
        · show (pack.entries.set _ _).getD i zeroEntry = _
          exact getD_set_ne _ _ i hti _ _
  · intro src h hm i hlen hinv
    subst hm
    rw [gen_all_entries pack algo src h]
    show ((pack.entries.map _).getD i zeroEntry).valid = true ∧ _
    rw [getD_map_of_lt _ pack.entries i hlen zeroEntry zeroEntry]
    unfold generateEntry
    rw [if_neg (by simpa using hinv)]
    exact ⟨rfl, rfl, rfl, rfl⟩
  · intro src h hm
    rw [gen_one_entries pack mode algo src h hm]
    constructor
    · intro i hne
      show (pack.entries.set _ _).getD i zeroEntry = _
      exact getD_set_ne _ _ i (fun hh => hne hh.symm) _ _
    · intro hlen hinv
      show ((pack.entries.set _ _).getD _ zeroEntry).valid = true ∧ _
      rw [getD_set_self _ _ hlen]
      unfold generateEntry
      rw [if_neg (by simpa using hinv)]
      exact ⟨rfl, rfl⟩

/-- C3 witness: on a two-slot pack with the size-2 slot valid and the
size-1 slot invalid, generate-missing (ALL selector, nearest-neighbor)
fills the invalid slot from the source at index 0. -/
theorem C3_generate_missing_witness :
    ((GenerateMissingEntries wpackHi 0 0).entries.getD 1 zeroEntry).valid
        = true ∧
    ((GenerateMissingEntries wpackHi 0 0).entries.getD 1 zeroEntry).image
        = resampleImage 0 (wpackHi.entries.getD 0 zeroEntry).image
            (wpackHi.entries.getD 1 zeroEntry).size
            (wpackHi.entries.getD 1 zeroEntry).size :=
  have h := (C3_generate_missing wpackHi 0 0).2.2.2.1 0 (by decide) rfl 1
    (by decide) (by decide)
  ⟨h.1, h.2.1⟩

/-- C9: generate-missing is idempotent: a second application (same
selector and algorithm) returns exactly the pack produced by the
first. -/
theorem C9_generate_missing_idempotent (pack : IconPack) (mode algo : Nat) :
    GenerateMissingEntries (GenerateMissingEntries pack mode algo) mode algo =
      GenerateMissingEntries pack mode algo := by
  cases h : firstValidIdx pack.entries with
  | none => rw [gen_none pack mode algo h, gen_none pack mode algo h]
  | some src =>
    have hsrc := findFirstIdx_spec (fun e => e.valid) zeroEntry pack.entries src
      (by simpa [firstValidIdx] using h)
    by_cases hm : mode = 0
    · subst hm
      rw [gen_all_entries pack algo src h]
      have hne : pack.entries ≠ [] := by
        intro hnil
        rw [hnil] at hsrc
        exact absurd hsrc.1 (by simp)
      obtain ⟨e0, l0, he0⟩ := List.exists_cons_of_ne_nil hne
      have hall : ∀ e ∈ pack.entries.map
          (generateEntry (pack.entries.getD src zeroEntry).image algo),
          e.valid = true := by
        intro e he
        obtain ⟨x, _, rfl⟩ := List.mem_map.1 he
        exact generateEntry_valid _ _ _
      have h0 : firstValidIdx (pack.entries.map
          (generateEntry (pack.entries.getD src zeroEntry).image algo)) =
          some 0 := by
        rw [firstValidIdx, he0, List.map_cons]
        exact findFirstIdx_all_valid _ _ _ (generateEntry_valid _ _ _)
      rw [gen_all_entries _ algo 0 h0]
      show ({ pack with entries := _ } : IconPack) = _
      rw [map_generateEntry_of_all_valid _ algo _ hall]
    · rw [gen_one_entries pack mode algo src h hm]
      by_cases ht : mode - 1 < pack.entries.length
      · have hlen2 : mode - 1 < (pack.entries.set (mode - 1)
            (generateEntry (pack.entries.getD src zeroEntry).image algo
              (pack.entries.getD (mode - 1) zeroEntry))).length := by
          simpa using ht
        have hvalid : ∃ e ∈ (pack.entries.set (mode - 1)
            (generateEntry (pack.entries.getD src zeroEntry).image algo
              (pack.entries.getD (mode - 1) zeroEntry))), e.valid = true := by
          refine ⟨_, getD_mem_of_lt _ (mode - 1) hlen2 zeroEntry, ?_⟩
          rw [getD_set_self _ _ ht]
          exact generateEntry_valid _ _ _
        obtain ⟨k, hk⟩ := findFirstIdx_isSome (fun e => e.valid) _ hvalid
        rw [gen_one_entries _ mode algo k (by simpa [firstValidIdx] using hk) hm]
        show ({ pack with entries := _ } : IconPack) = _
        rw [show ((pack.entries.set (mode - 1)
            (generateEntry (pack.entries.getD src zeroEntry).image algo
              (pack.entries.getD (mode - 1) zeroEntry))).getD (mode - 1)
              zeroEntry) =
            generateEntry (pack.entries.getD src zeroEntry).image algo
              (pack.entries.getD (mode - 1) zeroEntry) from
          getD_set_self _ _ ht _ _,
          generateEntry_of_valid _ _ _ (generateEntry_valid _ _ _),
          List.set_set]
      · have hnop : pack.entries.set (mode - 1)
            (generateEntry (pack.entries.getD src zeroEntry).image algo
              (pack.entries.getD (mode - 1) zeroEntry)) = pack.entries :=
          List.set_eq_of_length_le (le_of_not_lt ht)
        rw [hnop]
        show GenerateMissingEntries pack mode algo = pack
        rw [gen_one_entries pack mode algo src h hm, hnop]

/-! ## ICO loader lemmas -/

theorem loadIcoPayloads_length :
    ∀ (sizes : List Nat) (stream : List Nat),
      (loadIcoPayloads stream sizes).length = sizes.length
  | [], _ => rfl
  | s :: rest, stream => by
    simpa [loadIcoPayloads] using loadIcoPayloads_length rest (stream.drop s)

theorem loadIcoPayloads_getD :
    ∀ (sizes : List Nat) (stream : List Nat) (i : Nat), i < sizes.length →
      (loadIcoPayloads stream sizes).getD i zeroEntry =
        loadIcoEntry ((stream.drop (sizes.take i).sum).take (sizes.getD i 0))
  | [], _, i, hi => absurd hi (by simp)
  | s :: rest, stream, 0, _ => by simp [loadIcoPayloads]
  | s :: rest, stream, i + 1, hi => by
    have := loadIcoPayloads_getD rest (stream.drop s) i (by simpa using hi)
    simpa [loadIcoPayloads, List.drop_drop, Nat.add_comm] using this

theorem loadIcoEntry_not_png (payload : List Nat)
    (h : payload.take 8 ≠ pngSignature) : loadIcoEntry payload = zeroEntry := by
  unfold loadIcoEntry
  exact if_neg h

/-- C4 (amended): the ICO loader reports the directory's declared image
count unchanged — each entry slot is decoded from its own sequential
payload read, a payload failing the PNG-signature check leaves its slot
as the zeroed placeholder while the other entries are still decoded,
and the returned count equals the declared count, not the number of
successfully decoded images. -/
theorem C4_ico_loader_skips_but_count_declared (bytes : List Nat) :
    (LoadIconPackFromICO bytes).2 = readU16le (bytes.drop 4) ∧
    (LoadIconPackFromICO bytes).1.length = readU16le (bytes.drop 4) ∧
    ∀ i, i < readU16le (bytes.drop 4) →
      ((LoadIconPackFromICO bytes).1.getD i zeroEntry =
        loadIcoEntry (icoPayloadAt bytes i)) ∧
      ((icoPayloadAt bytes i).take 8 ≠ pngSignature →
        (LoadIconPackFromICO bytes).1.getD i zeroEntry = zeroEntry) := by
  refine ⟨rfl, ?_, ?_⟩
  · show (loadIcoPayloads _ (icoDirSizes bytes)).length = _
    rw [loadIcoPayloads_length]
    simp [icoDirSizes]
  · intro i hi
    have hlen : i < (icoDirSizes bytes).length := by simpa [icoDirSizes] using hi
    have hmain : (LoadIconPackFromICO bytes).1.getD i zeroEntry =
        loadIcoEntry (icoPayloadAt bytes i) :=
      loadIcoPayloads_getD (icoDirSizes bytes) _ i hlen
    refine ⟨hmain, fun hsig => ?_⟩
    rw [hmain, loadIcoEntry_not_png _ hsig]

/-- C4 counterexample: on a well-formed ICO stream declaring N = 1
entries whose single payload is not PNG data, the loader still returns
count 1 (the declared N) with the lone entry left zeroed — the count is
not reduced to the number of successfully decoded images (0). -/
theorem C4_counterexample_count_not_reduced :
    (LoadIconPackFromICO wbytesBadIco).2 = 1 ∧
    (LoadIconPackFromICO wbytesBadIco).1 = [zeroEntry] ∧
    icoPayloadAt wbytesBadIco 0 = [0] ∧
    (icoPayloadAt wbytesBadIco 0).take 8 ≠ pngSignature := by
  refine ⟨by decide, by decide, by decide, by decide⟩

/-- C4 witness: the amended theorem applied to the malformed-payload
stream. -/
theorem C4_ico_loader_witness :
    0 < readU16le (wbytesBadIco.drop 4) ∧
    (LoadIconPackFromICO wbytesBadIco).1.getD 0 zeroEntry = zeroEntry :=
  ⟨by decide,
   ((C4_ico_loader_skips_but_count_declared wbytesBadIco).2.2 0 (by decide)).2
     (by decide)⟩

/-! ## ICO encoder layout lemmas -/

theorem drop_append_len {α : Type} :
    ∀ (a b : List α) (n : Nat), (a ++ b).drop (a.length + n) = b.drop n
  | [], _, _ => by simp
  | x :: a, b, n => by
    simpa [Nat.succ_add] using drop_append_len a b n

theorem icoDirEntryBytes_length (d : IcoDirEntry) :
    (icoDirEntryBytes d).length = 16 := by
  simp [icoDirEntryBytes, u16le, u32le]

theorem pngLenSum_cons (flag : Bool) (e : IconPackEntry)
    (l : List IconPackEntry) :
    pngLenSum flag (e :: l) = (entryPngData flag e).length + pngLenSum flag l := by
  simp [pngLenSum]

theorem icoDirBytes_length (flag : Bool) :
    ∀ (l : List IconPackEntry) (offset : Nat),
      (icoDirBytes flag l offset).length = 16 * l.length
  | [], _ => rfl
  | e :: l, offset => by
    simp [icoDirBytes, icoDirEntryBytes_length, icoDirBytes_length flag l,
      Nat.mul_succ, Nat.mul_add]
    omega

theorem icoDirBytes_drop (flag : Bool) :
    ∀ (l : List IconPackEntry) (k offset : Nat), k < l.length →
      (icoDirBytes flag l offset).drop (16 * k) =
        icoDirEntryBytes (mkIcoDirEntry (l.getD k zeroEntry)
            (entryPngData flag (l.getD k zeroEntry)).length
            (offset + pngLenSum flag (l.take k))) ++
          icoDirBytes flag (l.drop (k + 1))
            (offset + pngLenSum flag (l.take (k + 1)))
  | [], k, _, hk => absurd hk (by simp)
  | e :: l, 0, offset, _ => by
    simp [icoDirBytes, pngLenSum_cons, pngLenSum]
  | e :: l, k + 1, offset, hk => by
    have ih := icoDirBytes_drop flag l k
      (offset + (entryPngData flag e).length) (by simpa using hk)
    have hstep : (icoDirBytes flag (e :: l) offset).drop (16 * (k + 1)) =
        (icoDirBytes flag l (offset + (entryPngData flag e).length)).drop
          (16 * k) := by
      show (icoDirEntryBytes _ ++ _).drop (16 * (k + 1)) = _
      rw [show 16 * (k + 1) = (icoDirEntryBytes (mkIcoDirEntry e
          (entryPngData flag e).length offset)).length + 16 * k by
        rw [icoDirEntryBytes_length]; ring]
      exact drop_append_len _ _ _
    rw [hstep, ih]
    have h1 : ((e :: l).take (k + 1 + 1)) = e :: l.take (k + 1) := rfl
    have h2 : ((e :: l).take (k + 1)) = e :: l.take k := rfl
    simp only [List.getD_cons_succ, List.drop_succ_cons, h1, h2, pngLenSum_cons,
      Nat.add_assoc]

theorem readIcoDirEntry_append (d : IcoDirEntry) (rest : List Nat) :
    readIcoDirEntry (icoDirEntryBytes d ++ rest) =
      { width := d.width % 256, height := d.height % 256,
        colpalette := d.colpalette % 256, reserved := d.reserved % 256,
        planes := d.planes % 65536, bpp := d.bpp % 65536,
        size := d.size % 4294967296, offset := d.offset % 4294967296 } := by
  have hflat : icoDirEntryBytes d ++ rest =
      d.width % 256 :: d.height % 256 :: d.colpalette % 256 ::
      d.reserved % 256 :: d.planes % 256 :: d.planes / 256 % 256 ::
      d.bpp % 256 :: d.bpp / 256 % 256 :: d.size % 256 ::
      d.size / 256 % 256 :: d.size / 65536 % 256 ::
      d.size / 16777216 % 256 :: d.offset % 256 :: d.offset / 256 % 256 ::
      d.offset / 65536 % 256 :: d.offset / 16777216 % 256 :: rest := by
    simp [icoDirEntryBytes, u16le, u32le]
  rw [hflat]
  simp only [readIcoDirEntry, readU16le, readU32le, List.drop_succ_cons,
    List.drop_zero, List.getD, List.get?, Option.getD_some,
    IcoDirEntry.mk.injEq]
  refine ⟨trivial, trivial, trivial, trivial, by omega, by omega,
    by omega, by omega⟩

theorem saveICO_eq (entries : List IconPackEntry) (flag : Bool)
    (h : (entries.filter fun e => e.valid).length ≠ 0) :
    SaveIconPackToICO entries flag =
      some (u16le 0 ++ u16le 1 ++
        u16le (entries.filter fun e => e.valid).length ++
        icoDirBytes flag (entries.filter fun e => e.valid)
          (6 + 16 * (entries.filter fun e => e.valid).length) ++
        ((entries.filter fun e => e.valid).map (entryPngData flag)).flatten) := by
  simp only [SaveIconPackToICO]
  rw [if_neg h]

theorem header_drop4 (n : Nat) (X Y : List Nat) :
    (u16le 0 ++ u16le 1 ++ u16le n ++ X ++ Y).drop 4 = u16le n ++ (X ++ Y) := by
  simp [u16le]

theorem header_drop6 (n : Nat) (X Y : List Nat) :
    (u16le 0 ++ u16le 1 ++ u16le n ++ X ++ Y).drop 6 = X ++ Y := by
  simp [u16le]

theorem header_take6 (n : Nat) (X Y : List Nat) :
    (u16le 0 ++ u16le 1 ++ u16le n ++ X ++ Y).take 6 =
      u16le 0 ++ u16le 1 ++ u16le n := by
  simp [u16le]

/-- C8: the ICO encoder writes no file for zero valid entries;
otherwise the 6-byte header carries image count = number of valid
entries, every directory entry's offset field is the cumulative byte
offset starting at `6 + 16·N`, its size field is its payload's length,
its width/height bytes encode `image.width` with 256 written as 0 (so
that for widths in 1..256 the 0-means-256 convention decodes them
exactly), and the payloads follow in directory order. -/
theorem C8_ico_encoder_layout (entries : List IconPackEntry) (flag : Bool) :
    ((entries.filter fun e => e.valid).length = 0 →
      SaveIconPackToICO entries flag = none) ∧
    ∀ b, SaveIconPackToICO entries flag = some b →
      b.take 6 = u16le 0 ++ u16le 1 ++
        u16le (entries.filter fun e => e.valid).length ∧
      b.drop (6 + 16 * (entries.filter fun e => e.valid).length) =
        ((entries.filter fun e => e.valid).map (entryPngData flag)).flatten ∧
      ∀ k, k < (entries.filter fun e => e.valid).length →
        (readIcoDirEntry ((b.drop 6).drop (16 * k))).offset =
          (6 + 16 * (entries.filter fun e => e.valid).length +
            pngLenSum flag ((entries.filter fun e => e.valid).take k)) %
            4294967296 ∧
        (readIcoDirEntry ((b.drop 6).drop (16 * k))).size =
          (entryPngData flag
            ((entries.filter fun e => e.valid).getD k zeroEntry)).length %
            4294967296 ∧
        (readIcoDirEntry ((b.drop 6).drop (16 * k))).width =
          (if ((entries.filter fun e => e.valid).getD k
                zeroEntry).image.width = 256 then 0
            else ((entries.filter fun e => e.valid).getD k
              zeroEntry).image.width) % 256 ∧
        (readIcoDirEntry ((b.drop 6).drop (16 * k))).height =
          (readIcoDirEntry ((b.drop 6).drop (16 * k))).width ∧
        (1 ≤ ((entries.filter fun e => e.valid).getD k
            zeroEntry).image.width →
          ((entries.filter fun e => e.valid).getD k
            zeroEntry).image.width ≤ 256 →
          (if (readIcoDirEntry ((b.drop 6).drop (16 * k))).width = 0 then 256
            else (readIcoDirEntry ((b.drop 6).drop (16 * k))).width) =
            ((entries.filter fun e => e.valid).getD k
              zeroEntry).image.width) := by
  constructor
  · intro h
    simp only [SaveIconPackToICO]
    rw [if_pos h]
  · intro b hb
    have hne : (entries.filter fun e => e.valid).length ≠ 0 := by
      intro h0
      rw [show SaveIconPackToICO entries flag = none by
        simp only [SaveIconPackToICO]; rw [if_pos h0]] at hb
      exact Option.noConfusion hb
    rw [saveICO_eq entries flag hne] at hb
    obtain rfl := (Option.some.inj hb).symm
    refine ⟨?_, ?_, ?_⟩
    · exact header_take6 _ _ _
    · have hd : (u16le 0 ++ u16le 1 ++
          u16le (entries.filter fun e => e.valid).length ++
          icoDirBytes flag (entries.filter fun e => e.valid)
            (6 + 16 * (entries.filter fun e => e.valid).length) ++
          ((entries.filter fun e => e.valid).map
            (entryPngData flag)).flatten).drop
          (6 + 16 * (entries.filter fun e => e.valid).length) =
          ((u16le 0 ++ u16le 1 ++
            u16le (entries.filter fun e => e.valid).length ++
            icoDirBytes flag (entries.filter fun e => e.valid)
              (6 + 16 * (entries.filter fun e => e.valid).length) ++
            ((entries.filter fun e => e.valid).map
              (entryPngData flag)).flatten).drop 6).drop
            (16 * (entries.filter fun e => e.valid).length) := by
        rw [List.drop_drop]
      rw [hd, header_drop6]
      nth_rewrite 1 [← icoDirBytes_length flag (entries.filter fun e => e.valid)
          (6 + 16 * (entries.filter fun e => e.valid).length)]
      rw [List.drop_left]
    · intro k hk
      have hdrop : ((u16le 0 ++ u16le 1 ++ u16le
          (entries.filter fun e => e.valid).length ++
          icoDirBytes flag (entries.filter fun e => e.valid)
            (6 + 16 * (entries.filter fun e => e.valid).length) ++
          ((entries.filter fun e => e.valid).map
            (entryPngData flag)).flatten).drop 6).drop (16 * k) =
          icoDirEntryBytes (mkIcoDirEntry
            ((entries.filter fun e => e.valid).getD k zeroEntry)
            (entryPngData flag
              ((entries.filter fun e => e.valid).getD k zeroEntry)).length
            (6 + 16 * (entries.filter fun e => e.valid).length +
              pngLenSum flag ((entries.filter fun e => e.valid).take k))) ++
          (icoDirBytes flag ((entries.filter fun e => e.valid).drop (k + 1))
            (6 + 16 * (entries.filter fun e => e.valid).length +
              pngLenSum flag ((entries.filter fun e => e.valid).take (k + 1))) ++
          ((entries.filter fun e => e.valid).map
            (entryPngData flag)).flatten) := by
        rw [header_drop6, List.drop_append_of_le_length
          (by rw [icoDirBytes_length]; exact Nat.mul_le_mul_left 16 (le_of_lt hk)),
          icoDirBytes_drop flag _ k _ hk, List.append_assoc]
      rw [hdrop, readIcoDirEntry_append]
      refine ⟨rfl, rfl, rfl, rfl, ?_⟩
      intro h1 h256
      show (if (if ((entries.filter fun e => e.valid).getD k
              zeroEntry).image.width = 256 then 0
            else ((entries.filter fun e => e.valid).getD k
              zeroEntry).image.width) % 256 = 0 then 256
          else (if ((entries.filter fun e => e.valid).getD k
              zeroEntry).image.width = 256 then 0
            else ((entries.filter fun e => e.valid).getD k
              zeroEntry).image.width) % 256) =
        ((entries.filter fun e => e.valid).getD k zeroEntry).image.width
      by_cases h : ((entries.filter fun e => e.valid).getD k
          zeroEntry).image.width = 256
      · rw [if_pos h, h]
        simp
      · rw [if_neg h]
        have hlt2 : ((entries.filter fun e => e.valid).getD k
            zeroEntry).image.width < 256 := by omega
        rw [Nat.mod_eq_of_lt hlt2]
        split
        · next h0 => omega
        · rfl

/-- C8 witness: the single-valid-entry pack, directory entry 0. -/
theorem C8_ico_encoder_layout_witness :
    0 < ([wentryHi].filter fun e => e.valid).length ∧
    (readIcoDirEntry ((wicoHiBytes.drop 6).drop (16 * 0))).size =
      (entryPngData true
        (([wentryHi].filter fun e => e.valid).getD 0 zeroEntry)).length %
        4294967296 :=
  ⟨by decide,
   (((C8_ico_encoder_layout [wentryHi] true).2 wicoHiBytes (by decide)).2.2 0
     (by decide)).2.1⟩

/-! ## PNG payload anatomy lemmas -/

theorem strlenB_zero_of_head (t : List Nat) (h : t.getD 0 0 = 0) :
    strlenB t = 0 := by
  cases t with
  | nil => rfl
  | cons b rest =>
    simp only [List.getD_cons_zero] at h
    simp [strlenB, h]

theorem png_assoc (data : List Nat) (w h ch : Nat) (extra : List Nat) :
    rpng_save_image_to_memory data w h ch ++ extra =
      pngSignature ++ (u32le w ++ (u32le h ++ ([ch] ++ (data ++ extra)))) := by
  simp [rpng_save_image_to_memory, List.append_assoc]

theorem png_take8 (data : List Nat) (w h ch : Nat) (extra : List Nat) :
    (rpng_save_image_to_memory data w h ch ++ extra).take 8 = pngSignature := by
  rw [png_assoc, show (8 : Nat) = pngSignature.length from rfl, List.take_left]

theorem png_drop8 (data : List Nat) (w h ch : Nat) (extra : List Nat) :
    (rpng_save_image_to_memory data w h ch ++ extra).drop 8 =
      u32le w ++ (u32le h ++ ([ch] ++ (data ++ extra))) := by
  rw [png_assoc, show (8 : Nat) = pngSignature.length from rfl, List.drop_left]

theorem png_drop12 (data : List Nat) (w h ch : Nat) (extra : List Nat) :
    (rpng_save_image_to_memory data w h ch ++ extra).drop 12 =
      u32le h ++ ([ch] ++ (data ++ extra)) := by
  have h1 : (rpng_save_image_to_memory data w h ch ++ extra).drop 12 =
      ((rpng_save_image_to_memory data w h ch ++ extra).drop 8).drop 4 := by
    rw [List.drop_drop]
  rw [h1, png_drop8, show (4 : Nat) = (u32le w).length from rfl, List.drop_left]

theorem png_drop16 (data : List Nat) (w h ch : Nat) (extra : List Nat) :
    (rpng_save_image_to_memory data w h ch ++ extra).drop 16 =
      [ch] ++ (data ++ extra) := by
  have h1 : (rpng_save_image_to_memory data w h ch ++ extra).drop 16 =
      ((rpng_save_image_to_memory data w h ch ++ extra).drop 12).drop 4 := by
    rw [List.drop_drop]
  rw [h1, png_drop12, show (4 : Nat) = (u32le h).length from rfl, List.drop_left]

theorem png_drop17 (data : List Nat) (w h ch : Nat) (extra : List Nat) :
    (rpng_save_image_to_memory data w h ch ++ extra).drop 17 = data ++ extra := by
  have h1 : (rpng_save_image_to_memory data w h ch ++ extra).drop 17 =
      ((rpng_save_image_to_memory data w h ch ++ extra).drop 16).drop 1 := by
    rw [List.drop_drop]
  rw [h1, png_drop16]
  rfl

theorem png_trailer (img : Image) (extra : List Nat)
    (hdata : img.data.length = img.width * img.height * 4) :
    (rpng_save_image_to_memory img.data img.width img.height 4 ++ extra).drop
      (17 + img.width * img.height * 4) = extra := by
  have h1 : (rpng_save_image_to_memory img.data img.width img.height 4 ++
      extra).drop (17 + img.width * img.height * 4) =
      ((rpng_save_image_to_memory img.data img.width img.height 4 ++
        extra).drop 17).drop (img.width * img.height * 4) := by
    rw [List.drop_drop, Nat.add_comm]
  rw [h1, png_drop17, ← hdata, List.drop_left]

theorem png_decode (img : Image) (extra : List Nat)
    (hdata : img.data.length = img.width * img.height * 4)
    (hw : img.width < 4294967296) (hh : img.height < 4294967296) :
    LoadImageFromMemory
      (rpng_save_image_to_memory img.data img.width img.height 4 ++ extra) =
      { width := img.width, height := img.height,
        format := PIXELFORMAT_UNCOMPRESSED_R8G8B8A8, data := img.data } := by
  unfold LoadImageFromMemory
  rw [if_pos (png_take8 _ _ _ _ _)]
  simp only [png_drop8, png_drop12, png_drop16, png_drop17,
    readU32le_u32le_append, Nat.mod_eq_of_lt hw, Nat.mod_eq_of_lt hh,
    List.singleton_append, List.getD_cons_zero, Image.mk.injEq]
  refine ⟨trivial, trivial, ?_, ?_⟩
  · rw [if_neg (by decide)]
  · rw [← hdata, List.take_left]

theorem chunk_read_eq (img : Image) (extra : List Nat)
    (hdata : img.data.length = img.width * img.height * 4)
    (hw : img.width < 4294967296) (hh : img.height < 4294967296) :
    rpng_chunk_read_from_memory
      (rpng_save_image_to_memory img.data img.width img.height 4 ++ extra) =
      if (extra.drop 4).take 4 = rIPtTag then
        { length := readU32le extra,
          data := (extra.drop 8).take (readU32le extra) }
      else { length := 0, data := [] } := by
  unfold rpng_chunk_read_from_memory
  simp only [png_drop8, png_drop12, png_drop16, readU32le_u32le_append,
    Nat.mod_eq_of_lt hw, Nat.mod_eq_of_lt hh, List.singleton_append,
    List.getD_cons_zero]
  rw [png_trailer img extra hdata]

theorem strlenB_freshTextBuf (t : List Nat) (h : strlenB t ≤ 39) :
    strlenB (freshTextBuf t) = strlenB t := by
  unfold freshTextBuf memcpyB
  have htake : (textContent t).take (strlenB t) = textContent t := by
    rw [← length_textContent t]
    exact List.take_length _
  rw [htake, strlenB_append_of_ne_zero _ _ (textContent_ne_zero t),
    length_textContent]
  have hz : strlenB ((List.replicate 40 (0 : Nat)).drop (strlenB t)) = 0 := by
    simp only [List.drop_replicate]
    exact strlenB_replicate_zero _
  rw [hz]
  omega

theorem textContent_freshTextBuf (t : List Nat) (h : strlenB t ≤ 39) :
    textContent (freshTextBuf t) = textContent t :=
  textContent_memcpy_fresh t h

theorem memcpy_freshTextBuf (t : List Nat) (h : strlenB t ≤ 39) :
    memcpyB (List.replicate 40 0) (freshTextBuf t) (strlenB (freshTextBuf t)) =
      freshTextBuf (freshTextBuf t) := by
  simp only [freshTextBuf, memcpyB, textContent, List.take_take, Nat.min_self]

/-- Decoding the PNG payload the ICO saver builds for a well-formed
RGBA entry reproduces the entry's image and its text content (copied
onto a fresh zeroed 40-byte buffer). -/
theorem loadIcoEntry_entryPngData (e : IconPackEntry)
    (hfmt : e.image.format = PIXELFORMAT_UNCOMPRESSED_R8G8B8A8)
    (hdata : e.image.data.length = e.image.width * e.image.height * 4)
    (hw : e.image.width < 4294967296) (hh : e.image.height < 4294967296)
    (hstr : strlenB e.text ≤ 39) :
    loadIcoEntry (entryPngData true e) =
      { size := e.image.width, valid := false, image := e.image,
        text := freshTextBuf e.text } := by
  have hch : colorChannels e.image.format = 4 := by
    rw [hfmt]
    rfl
  have himg : ({ width := e.image.width, height := e.image.height, format := PIXELFORMAT_UNCOMPRESSED_R8G8B8A8, data := e.image.data } : Image) = e.image := by
    rw [← hfmt]
  by_cases ht : e.text.getD 0 0 ≠ 0
  · -- text chunk appended
    have hpayload : entryPngData true e =
        rpng_save_image_to_memory e.image.data e.image.width e.image.height 4 ++
          (u32le (textContent e.text).length ++
            (rIPtTag ++ textContent e.text)) := by
      unfold entryPngData
      rw [if_pos ⟨rfl, ht⟩, hch]
      simp [rpng_chunk_write_from_memory, List.append_assoc]
    have hLlen : (textContent e.text).length = strlenB e.text :=
      length_textContent e.text
    have hLlt : (textContent e.text).length < 4294967296 := by
      rw [hLlen]; omega
    have hchunk : rpng_chunk_read_from_memory
        (rpng_save_image_to_memory e.image.data e.image.width e.image.height 4 ++
          (u32le (textContent e.text).length ++
            (rIPtTag ++ textContent e.text))) =
        { length := strlenB e.text, data := textContent e.text } := by
      rw [chunk_read_eq e.image _ hdata hw hh]
      have hd4 : ((u32le (textContent e.text).length ++
          (rIPtTag ++ textContent e.text)).drop 4) =
          rIPtTag ++ textContent e.text := by
        rw [show (4 : Nat) = (u32le (textContent e.text).length).length from rfl,
          List.drop_left]
      rw [if_pos (by
        rw [hd4, show (4 : Nat) = rIPtTag.length from rfl, List.take_left])]
      have hread : readU32le (u32le (textContent e.text).length ++
          (rIPtTag ++ textContent e.text)) = strlenB e.text := by
        rw [readU32le_u32le_append, Nat.mod_eq_of_lt hLlt, hLlen]
      have hd8 : ((u32le (textContent e.text).length ++
          (rIPtTag ++ textContent e.text)).drop 8) = textContent e.text := by
        have h48 : ((u32le (textContent e.text).length ++
            (rIPtTag ++ textContent e.text)).drop 8) =
            (((u32le (textContent e.text).length ++
              (rIPtTag ++ textContent e.text)).drop 4)).drop 4 := by
          rw [List.drop_drop]
        rw [h48, hd4, show (4 : Nat) = rIPtTag.length from rfl, List.drop_left]
      rw [hread, hd8, RpngChunk.mk.injEq]
      refine ⟨rfl, ?_⟩
      rw [← hLlen]
      exact List.take_length _
    unfold loadIcoEntry
    rw [hpayload, if_pos (png_take8 _ _ _ _ _),
      png_decode e.image _ hdata hw hh, hchunk]
    rw [IconPackEntry.mk.injEq]
    refine ⟨rfl, rfl, himg, ?_⟩
    rw [if_pos (show strlenB e.text < MAX_IMAGE_TEXT_SIZE by
      show strlenB e.text < 40
      omega)]
    rfl
  · -- no chunk: text buffer starts with NUL
    have ht0 : e.text.getD 0 0 = 0 := by
      by_contra hc
      exact ht hc
    have hs0 : strlenB e.text = 0 := strlenB_zero_of_head e.text ht0
    have hpayload : entryPngData true e =
        rpng_save_image_to_memory e.image.data e.image.width e.image.height 4 ++
          [] := by
      unfold entryPngData
      rw [if_neg (by intro hc; exact ht hc.2), hch, List.append_nil]
    have hchunk : rpng_chunk_read_from_memory
        (rpng_save_image_to_memory e.image.data e.image.width e.image.height 4 ++
          []) = { length := 0, data := [] } := by
      rw [chunk_read_eq e.image _ hdata hw hh]
      rw [if_neg (by decide)]
    unfold loadIcoEntry
    rw [hpayload, if_pos (png_take8 _ _ _ _ _),
      png_decode e.image _ hdata hw hh, hchunk]
    rw [IconPackEntry.mk.injEq]
    refine ⟨rfl, rfl, himg, ?_⟩
    rw [if_pos (show (0 : Nat) < MAX_IMAGE_TEXT_SIZE by decide)]
    unfold freshTextBuf textContent memcpyB
    rw [hs0]
    simp

theorem entryPngData_length (flag : Bool) (e : IconPackEntry) :
    (entryPngData flag e).length =
      17 + e.image.data.length +
        if flag ∧ e.text.getD 0 0 ≠ 0 then 8 + strlenB e.text else 0 := by
  unfold entryPngData
  split
  · next hcond =>
    simp [rpng_chunk_write_from_memory, rpng_save_image_to_memory,
      pngSignature, u32le, rIPtTag, length_textContent]
    omega
  · next hcond =>
    simp [rpng_save_image_to_memory, pngSignature, u32le]
    omega

theorem loadIcoPayloads_flatten :
    ∀ pngs : List (List Nat),
      loadIcoPayloads pngs.flatten (pngs.map List.length) =
        pngs.map loadIcoEntry
  | [] => rfl
  | p :: rest => by
    show loadIcoEntry ((p ++ rest.flatten).take p.length) ::
        loadIcoPayloads ((p ++ rest.flatten).drop p.length) (rest.map List.length) = _
    rw [List.take_left, List.drop_left, loadIcoPayloads_flatten rest]
    rfl

/-! ## Valid-entry decomposition lemmas -/

theorem filter_valid_width_sublist :
    ∀ (es : List IconPackEntry) (ss : List Nat), es.length = ss.length →
      (∀ j, j < es.length → (es.getD j zeroEntry).valid = true →
        (es.getD j zeroEntry).image.width = ss.getD j 0) →
      ((es.filter fun e => e.valid).map fun e => e.image.width).Sublist ss
  | [], [], _, _ => by simp
  | [], s :: ss, h, _ => by simp at h
  | e :: es, [], h, _ => by simp at h
  | e :: es, s :: ss, h, hw => by
    have hrec := filter_valid_width_sublist es ss (by simpa using h)
      fun j hj hv => hw (j + 1) (by simpa using hj) hv
    by_cases hv : e.valid
    · rw [List.filter_cons_of_pos (by simpa using hv), List.map_cons]
      have hwe : e.image.width = s := hw 0 (by simp) (by simpa using hv)
      rw [hwe]
      exact hrec.cons₂ s
    · rw [List.filter_cons_of_neg (by simpa using hv)]
      exact hrec.cons s

theorem filter_valid_decomp :
    ∀ (es : List IconPackEntry) (ss : List Nat), es.length = ss.length →
      ss.Nodup →
      (∀ j, j < es.length → (es.getD j zeroEntry).valid = true →
        (es.getD j zeroEntry).image.width = ss.getD j 0) →
      ∀ i, i < es.length → (es.getD i zeroEntry).valid = true →
        ∃ l₁ l₂, es.filter (fun e => e.valid) =
            l₁ ++ (es.getD i zeroEntry) :: l₂ ∧
          (∀ d ∈ l₁, d.image.width ≠ ss.getD i 0) ∧
          (∀ d ∈ l₂, d.image.width ≠ ss.getD i 0)
  | [], _, _, _, _, i, hi, _ => absurd hi (by simp)
  | e :: es, [], h, _, _, _, _, _ => by simp at h
  | e :: es, s :: ss, h, hnd, hw, 0, _, hv => by
    refine ⟨[], es.filter fun d => d.valid, ?_, by simp, ?_⟩
    · rw [List.nil_append, List.getD_cons_zero,
        List.filter_cons_of_pos (by simpa using hv)]
    · intro d hd
      have hsub := filter_valid_width_sublist es ss (by simpa using h)
        fun j hj hvj => hw (j + 1) (by simpa using hj) hvj
      have hmem : d.image.width ∈ ss :=
        hsub.subset (List.mem_map_of_mem _ hd)
      intro heq
      rw [List.getD_cons_zero] at heq
      rw [heq] at hmem
      exact (List.nodup_cons.1 hnd).1 hmem
  | e :: es, s :: ss, h, hnd, hw, i + 1, hi, hv => by
    have hrec := filter_valid_decomp es ss (by simpa using h)
      (List.nodup_cons.1 hnd).2
      (fun j hj hvj => hw (j + 1) (by simpa using hj) hvj)
      i (by simpa using hi) hv
    obtain ⟨l₁, l₂, heq, h₁, h₂⟩ := hrec
    have hslt : i < ss.length := by
      have hes : es.length = ss.length := by simpa using h
      have h1 : i < es.length := by simpa using hi
      omega
    have hsne : s ≠ ss.getD i 0 := by
      intro hcontra
      have : ss.getD i 0 ∈ ss := getD_mem_of_lt ss i hslt 0
      rw [← hcontra] at this
      exact (List.nodup_cons.1 hnd).1 this
    by_cases hve : e.valid
    · refine ⟨e :: l₁, l₂, ?_, ?_, ?_⟩
      · rw [List.filter_cons_of_pos (by simpa using hve), heq]
        rfl
      · intro d hd
        rcases List.mem_cons.1 hd with rfl | hd'
        · have hwe : d.image.width = s := hw 0 (by simp) (by simpa using hve)
          rw [hwe, List.getD_cons_succ]
          exact hsne
        · have := h₁ d hd'
          rwa [List.getD_cons_succ]
      · intro d hd
        have := h₂ d hd
        rwa [List.getD_cons_succ]
    · refine ⟨l₁, l₂, ?_, ?_, ?_⟩
      · rw [List.filter_cons_of_neg (by simpa using hve), heq]
        rfl
      · intro d hd
        have := h₁ d hd
        rwa [List.getD_cons_succ]
      · intro d hd
        have := h₂ d hd
        rwa [List.getD_cons_succ]

/-! ## Full-stream helper lemmas for the saved ICO bytes -/

theorem icoFull_read_dir (flag : Bool) (l : List IconPackEntry) (k : Nat)
    (hk : k < l.length) :
    readIcoDirEntry (((u16le 0 ++ u16le 1 ++ u16le l.length ++
        icoDirBytes flag l (6 + 16 * l.length) ++
        (l.map (entryPngData flag)).flatten).drop 6).drop (16 * k)) =
      { width := (if (l.getD k zeroEntry).image.width = 256 then 0
          else (l.getD k zeroEntry).image.width) % 256,
        height := (if (l.getD k zeroEntry).image.width = 256 then 0
          else (l.getD k zeroEntry).image.width) % 256,
        colpalette := 0, reserved := 0, planes := 0, bpp := 32,
        size := (entryPngData flag (l.getD k zeroEntry)).length % 4294967296,
        offset := (6 + 16 * l.length + pngLenSum flag (l.take k)) %
          4294967296 } := by
  rw [header_drop6, List.drop_append_of_le_length
    (by rw [icoDirBytes_length]; exact Nat.mul_le_mul_left 16 (le_of_lt hk)),
    icoDirBytes_drop flag _ k _ hk, List.append_assoc, readIcoDirEntry_append]
  rfl

theorem icoFull_drop_payload (flag : Bool) (l : List IconPackEntry) :
    (u16le 0 ++ u16le 1 ++ u16le l.length ++
      icoDirBytes flag l (6 + 16 * l.length) ++
      (l.map (entryPngData flag)).flatten).drop (6 + 16 * l.length) =
      (l.map (entryPngData flag)).flatten := by
  have hd : (u16le 0 ++ u16le 1 ++ u16le l.length ++
      icoDirBytes flag l (6 + 16 * l.length) ++
      (l.map (entryPngData flag)).flatten).drop (6 + 16 * l.length) =
      ((u16le 0 ++ u16le 1 ++ u16le l.length ++
        icoDirBytes flag l (6 + 16 * l.length) ++
        (l.map (entryPngData flag)).flatten).drop 6).drop (16 * l.length) := by
    rw [List.drop_drop]
  rw [hd, header_drop6]
  nth_rewrite 1 [← icoDirBytes_length flag l (6 + 16 * l.length)]
  rw [List.drop_left]

/-! ## Loading a decoded list into a fresh pack -/

theorem mkFreshPack_getD (S : List Nat) (i : Nat) (hi : i < S.length) :
    (mkFreshPack S).entries.getD i zeroEntry = mkPackEntry (S.getD i 0) := by
  show (S.map mkPackEntry).getD i zeroEntry = _
  exact getD_map_of_lt mkPackEntry S i hi zeroEntry 0

theorem matchIndexP_ne_of_width (S : List Nat) (count : Nat)
    (hc : count = S.length) (img : Image) (i : Nat)
    (hne : img.width ≠ S.getD i 0) :
    matchIndexP S count img ≠ some i := by
  intro hm
  unfold matchIndexP at hm
  by_cases hsq : img.width ≠ img.height
  · rw [if_pos hsq] at hm
    exact Option.noConfusion hm
  · rw [if_neg hsq] at hm
    obtain ⟨_, h2, _⟩ := findFirstIdx_spec _ 0 _ _ hm
    rw [hc, List.take_length] at h2
    exact hne (by simpa using h2)

theorem matchIndexP_some (S : List Nat) (hnd : S.Nodup) (count : Nat)
    (hc : count = S.length) (img : Image) (i : Nat) (hi : i < S.length)
    (hsq : img.width = img.height) (hwid : S.getD i 0 = img.width) :
    matchIndexP S count img = some i := by
  unfold matchIndexP
  rw [if_neg (by simp [hsq]), hc, List.take_length]
  exact findFirstIdx_nodup img.width S hnd i hi hwid

theorem loadEntryStep_populate (pack : IconPack) (d : IconPackEntry) (i : Nat)
    (hm : matchIndexP pack.sizes pack.entries.length d.image = some i)
    (hval : (pack.entries.getD i zeroEntry).valid = false)
    (hi : i < pack.entries.length) :
    (loadEntryStep pack d).entries.getD i zeroEntry = populatedEntry pack i d := by
  unfold loadEntryStep
  split
  · next heq =>
      rw [hm] at heq
      exact Option.noConfusion heq
  · next index heq =>
      rw [hm] at heq
      have hidx : index = i := (Option.some.inj heq).symm
      subst hidx
      split
      · next hv =>
          rw [hval] at hv
          exact absurd hv (by simp)
      · show (pack.entries.set index (populatedEntry pack index d)).getD index
            zeroEntry = _
        exact getD_set_self _ index hi _ _

/-- Loading a decoded list `l₁ ++ dmid :: l₂` into a fresh pack, where
no element of `l₁` carries slot i's width and `dmid` does (square and
matching), populates slot i from `dmid` — and later entries cannot
displace it. -/
theorem load_fresh_slot (S : List Nat) (hnd : S.Nodup) (i : Nat)
    (hi : i < S.length) (l₁ l₂ : List IconPackEntry) (dmid : IconPackEntry)
    (hsq : dmid.image.width = dmid.image.height)
    (hwid : dmid.image.width = S.getD i 0)
    (h₁ : ∀ d ∈ l₁, d.image.width ≠ S.getD i 0) :
    (LoadIconToPack (mkFreshPack S) (l₁ ++ dmid :: l₂)).entries.getD i
        zeroEntry =
      { size := S.getD i 0, valid := true,
        image := ImageFormatRGBA dmid.image,
        text := memcpyB (List.replicate 40 0) dmid.text (strlenB dmid.text) } := by
  have hfold : LoadIconToPack (mkFreshPack S) (l₁ ++ dmid :: l₂) =
      LoadIconToPack (loadEntryStep (LoadIconToPack (mkFreshPack S) l₁) dmid)
        l₂ := by
    unfold LoadIconToPack
    rw [List.foldl_append]
    rfl
  have hsizes : (LoadIconToPack (mkFreshPack S) l₁).sizes = S :=
    loadFold_sizes l₁ (mkFreshPack S)
  have hlen1 : (LoadIconToPack (mkFreshPack S) l₁).entries.length =
      S.length := by
    rw [loadFold_length]
    simp [mkFreshPack]
  have hunm : ∀ d ∈ l₁, matchIndexP (mkFreshPack S).sizes
      (mkFreshPack S).entries.length d.image ≠ some i := fun d hd =>
    matchIndexP_ne_of_width S _ (by simp [mkFreshPack]) d.image i (h₁ d hd)
  have hslot : (LoadIconToPack (mkFreshPack S) l₁).entries.getD i zeroEntry =
      mkPackEntry (S.getD i 0) := by
    rw [loadFold_unmatched_slot_preserved l₁ (mkFreshPack S) i hunm,
      mkFreshPack_getD S i hi]
  have hm : matchIndexP (LoadIconToPack (mkFreshPack S) l₁).sizes
      (LoadIconToPack (mkFreshPack S) l₁).entries.length dmid.image =
      some i := by
    rw [hsizes, hlen1]
    exact matchIndexP_some S hnd S.length rfl dmid.image i hi hsq hwid.symm
  have hval : ((LoadIconToPack (mkFreshPack S) l₁).entries.getD i
      zeroEntry).valid = false := by
    rw [hslot]
    rfl
  have hstepslot : (loadEntryStep (LoadIconToPack (mkFreshPack S) l₁)
      dmid).entries.getD i zeroEntry =
      { size := S.getD i 0, valid := true,
        image := ImageFormatRGBA dmid.image,
        text := memcpyB (List.replicate 40 0) dmid.text (strlenB dmid.text) } := by
    rw [loadEntryStep_populate _ dmid i hm hval (by rw [hlen1]; exact hi)]
    unfold populatedEntry
    rw [IconPackEntry.mk.injEq]
    refine ⟨by rw [hsizes], rfl, rfl, ?_⟩
    rw [hslot]
    rfl
  rw [hfold, loadFold_valid_slot_preserved l₂ _ i (by rw [hstepslot]),
    hstepslot]

theorem ext_getD {α : Type} (d : α) :
    ∀ (l₁ l₂ : List α), l₁.length = l₂.length →
      (∀ i, i < l₁.length → l₁.getD i d = l₂.getD i d) → l₁ = l₂
  | [], [], _, _ => rfl
  | [], b :: l₂, h, _ => by simp at h
  | a :: l₁, [], h, _ => by simp at h
  | a :: l₁, b :: l₂, h, hp => by
    have h0 := hp 0 (by simp)
    simp only [List.getD_cons_zero] at h0
    rw [h0, ext_getD d l₁ l₂ (by simpa using h)
      fun i hi => by simpa using hp (i + 1) (by simpa using hi)]

theorem getD_range (N n : Nat) (h : n < N) : (List.range N).getD n 0 = n := by
  rw [List.getD_eq_get _ 0 (by simpa using h)]
  exact List.get_range _ _

/-- C1: ICO round-trip.  For a pack with a duplicate-free size scheme
whose valid entries are square RGBA images bound to their slot sizes
(dimensions in the encoder-supported range 1..256, text content at most
39 bytes), saving the valid entries with `SaveIconPackToICO` (text
export enabled) and reloading the produced bytes with
`LoadIconPackFromICO` into a fresh pack with the same size scheme
reproduces, for every originally-valid entry, a valid slot with the
pixel-identical image and the byte-identical text content. -/
theorem C1_ico_roundtrip (pack : IconPack)
    (hnd : pack.sizes.Nodup)
    (hlen : pack.entries.length = pack.sizes.length)
    (hsmall : pack.entries.length < 65536)
    (hw : ∀ j, j < pack.entries.length →
      (pack.entries.getD j zeroEntry).valid = true →
      (pack.entries.getD j zeroEntry).image.width = pack.sizes.getD j 0)
    (hgeom : ∀ e ∈ pack.entries, e.valid = true →
      e.image.height = e.image.width ∧
      e.image.format = PIXELFORMAT_UNCOMPRESSED_R8G8B8A8 ∧
      e.image.data.length = e.image.width * e.image.width * 4 ∧
      1 ≤ e.image.width ∧ e.image.width ≤ 256 ∧ strlenB e.text ≤ 39)
    (i : Nat) (hi : i < pack.entries.length)
    (hv : (pack.entries.getD i zeroEntry).valid = true) :
    ∀ b, SaveIconPackToICO pack.entries true = some b →
      (((LoadIconToPack (mkFreshPack pack.sizes)
          (LoadIconPackFromICO b).1).entries.getD i zeroEntry).valid = true) ∧
      (((LoadIconToPack (mkFreshPack pack.sizes)
          (LoadIconPackFromICO b).1).entries.getD i zeroEntry).image =
        (pack.entries.getD i zeroEntry).image) ∧
      textContent (((LoadIconToPack (mkFreshPack pack.sizes)
          (LoadIconPackFromICO b).1).entries.getD i zeroEntry).text) =
        textContent ((pack.entries.getD i zeroEntry).text) := by
  intro b hb
  have hgm : ∀ e ∈ pack.entries.filter (fun e => e.valid),
      e.image.height = e.image.width ∧
      e.image.format = PIXELFORMAT_UNCOMPRESSED_R8G8B8A8 ∧
      e.image.data.length = e.image.width * e.image.width * 4 ∧
      1 ≤ e.image.width ∧ e.image.width ≤ 256 ∧ strlenB e.text ≤ 39 := by
    intro e he
    have hm := List.mem_filter.1 he
    exact hgeom e hm.1 (by simpa using hm.2)
  have hmemi : pack.entries.getD i zeroEntry ∈
      pack.entries.filter (fun e => e.valid) := by
    rw [List.mem_filter]
    exact ⟨getD_mem_of_lt _ i hi _, by simpa using hv⟩
  have hfne : (pack.entries.filter fun e => e.valid).length ≠ 0 := by
    intro h0
    rw [List.length_eq_zero.1 h0] at hmemi
    exact absurd hmemi (List.not_mem_nil _)
  rw [saveICO_eq pack.entries true hfne] at hb
  obtain rfl := Option.some.inj hb
  have hNle : (pack.entries.filter fun e => e.valid).length < 65536 :=
    lt_of_le_of_lt (List.length_filter_le _ _) hsmall
  have hread4 : readU16le ((u16le 0 ++ u16le 1 ++
      u16le (pack.entries.filter fun e => e.valid).length ++
      icoDirBytes true (pack.entries.filter fun e => e.valid)
        (6 + 16 * (pack.entries.filter fun e => e.valid).length) ++
      ((pack.entries.filter fun e => e.valid).map
        (entryPngData true)).flatten).drop 4) =
      (pack.entries.filter fun e => e.valid).length := by
    rw [header_drop4, readU16le_u16le_append, Nat.mod_eq_of_lt hNle]
  have hplt : ∀ e ∈ pack.entries.filter (fun e => e.valid),
      (entryPngData true e).length < 4294967296 := by
    intro e he
    obtain ⟨hh1, hf, hd, hwge, hwle, hsl⟩ := hgm e he
    rw [entryPngData_length]
    have hdb : e.image.data.length ≤ 262144 := by
      rw [hd]
      calc e.image.width * e.image.width * 4 ≤ 256 * 256 * 4 :=
            Nat.mul_le_mul_right 4 (Nat.mul_le_mul hwle hwle)
        _ = 262144 := rfl
    have hc : (if (true : Bool) ∧ e.text.getD 0 0 ≠ 0 then
        8 + strlenB e.text else 0) ≤ 47 := by
      split
      · omega
      · omega
    omega
  have hds : icoDirSizes (u16le 0 ++ u16le 1 ++
      u16le (pack.entries.filter fun e => e.valid).length ++
      icoDirBytes true (pack.entries.filter fun e => e.valid)
        (6 + 16 * (pack.entries.filter fun e => e.valid).length) ++
      ((pack.entries.filter fun e => e.valid).map
        (entryPngData true)).flatten) =
      ((pack.entries.filter fun e => e.valid).map
        (entryPngData true)).map List.length := by
    unfold icoDirSizes
    rw [hread4]
    apply ext_getD 0
    · simp
    · intro n hn
      have hn' : n < (pack.entries.filter fun e => e.valid).length := by
        simpa using hn
      rw [getD_map_of_lt _ _ n (by simpa using hn) 0 0, getD_range _ n hn']
      rw [icoFull_read_dir true _ n hn']
      rw [getD_map_of_lt List.length _ n (by simpa using hn') 0 [],
        getD_map_of_lt (entryPngData true) _ n hn' [] zeroEntry]
      exact Nat.mod_eq_of_lt (hplt _ (getD_mem_of_lt _ n hn' zeroEntry))
  have hdecoded : (LoadIconPackFromICO (u16le 0 ++ u16le 1 ++
      u16le (pack.entries.filter fun e => e.valid).length ++
      icoDirBytes true (pack.entries.filter fun e => e.valid)
        (6 + 16 * (pack.entries.filter fun e => e.valid).length) ++
      ((pack.entries.filter fun e => e.valid).map
        (entryPngData true)).flatten)).1 =
      (pack.entries.filter fun e => e.valid).map
        (fun e => loadIcoEntry (entryPngData true e)) := by
    show loadIcoPayloads _ _ = _
    rw [hread4, hds, icoFull_drop_payload true _, loadIcoPayloads_flatten,
      List.map_map]
    rfl
  obtain ⟨l₁, l₂, heq, h₁, h₂⟩ :=
    filter_valid_decomp pack.entries pack.sizes hlen hnd hw i hi hv
  obtain ⟨hh1, hf, hd, hwge, hwle, hsl⟩ := hgm _ hmemi
  have hgd : loadIcoEntry (entryPngData true (pack.entries.getD i zeroEntry)) =
      { size := (pack.entries.getD i zeroEntry).image.width, valid := false,
        image := (pack.entries.getD i zeroEntry).image,
        text := freshTextBuf (pack.entries.getD i zeroEntry).text } :=
    loadIcoEntry_entryPngData _ hf (by rw [hh1]; exact hd) (by omega)
      (by rw [hh1]; omega) hsl
  have hgx : ∀ x ∈ pack.entries.filter (fun e => e.valid),
      loadIcoEntry (entryPngData true x) =
      { size := x.image.width, valid := false, image := x.image,
        text := freshTextBuf x.text } := by
    intro x hx
    obtain ⟨xh1, xf, xd, xge, xle, xsl⟩ := hgm x hx
    exact loadIcoEntry_entryPngData x xf (by rw [xh1]; exact xd) (by omega)
      (by rw [xh1]; omega) xsl
  have hiS : i < pack.sizes.length := hlen ▸ hi
  have hwidth : (pack.entries.getD i zeroEntry).image.width =
      pack.sizes.getD i 0 := hw i hi hv
  have hdec2 : (pack.entries.filter fun e => e.valid).map
      (fun e => loadIcoEntry (entryPngData true e)) =
      l₁.map (fun e => loadIcoEntry (entryPngData true e)) ++
        loadIcoEntry (entryPngData true (pack.entries.getD i zeroEntry)) ::
        l₂.map (fun e => loadIcoEntry (entryPngData true e)) := by
    rw [heq, List.map_append, List.map_cons]
  have happly := load_fresh_slot pack.sizes hnd i hiS
    (l₁.map fun e => loadIcoEntry (entryPngData true e))
    (l₂.map fun e => loadIcoEntry (entryPngData true e))
    (loadIcoEntry (entryPngData true (pack.entries.getD i zeroEntry)))
    (by rw [hgd, ← hh1]) (by rw [hgd]; exact hwidth) ?_
  · rw [hdecoded, hdec2, happly]
    refine ⟨rfl, ?_, ?_⟩
    · rw [hgd]
      show ImageFormatRGBA (pack.entries.getD i zeroEntry).image = _
      unfold ImageFormatRGBA
      rw [if_pos hf]
    · rw [hgd]
      show textContent (memcpyB (List.replicate 40 0)
        (freshTextBuf (pack.entries.getD i zeroEntry).text)
        (strlenB (freshTextBuf (pack.entries.getD i zeroEntry).text))) = _
      rw [memcpy_freshTextBuf _ hsl,
        textContent_freshTextBuf _ (by rw [strlenB_freshTextBuf _ hsl]; exact hsl),
        textContent_freshTextBuf _ hsl]
  · intro d hd
    obtain ⟨x, hx, rfl⟩ := List.mem_map.1 hd
    have hxf : x ∈ pack.entries.filter (fun e => e.valid) := by
      rw [heq]
      exact List.mem_append.2 (Or.inl hx)
    rw [hgx x hxf]
    show x.image.width ≠ pack.sizes.getD i 0
    exact h₁ x hx

/-- C1 witness: the two-slot pack with one valid 2×2 entry carrying the
text "hi" round-trips through the ICO codec. -/
theorem C1_ico_roundtrip_witness :
    (((LoadIconToPack (mkFreshPack wpackHi.sizes)
        (LoadIconPackFromICO wicoHiBytes).1).entries.getD 0 zeroEntry).valid
        = true) ∧
    (((LoadIconToPack (mkFreshPack wpackHi.sizes)
        (LoadIconPackFromICO wicoHiBytes).1).entries.getD 0 zeroEntry).image =
      (wpackHi.entries.getD 0 zeroEntry).image) ∧
    textContent (((LoadIconToPack (mkFreshPack wpackHi.sizes)
        (LoadIconPackFromICO wicoHiBytes).1).entries.getD 0 zeroEntry).text) =
      textContent ((wpackHi.entries.getD 0 zeroEntry).text) :=
  C1_ico_roundtrip wpackHi (by decide) (by decide) (by decide) (by decide)
    (by decide) 0 (by decide) (by decide) wicoHiBytes (by decide)

end RIconPacker
